import Mathlib

/-!
Shallow embedding of the Netpbm library (src/PBM.go and src/PPM.go).

Nat streams are lists of naturals (each 0..255); Go strings occurring as
data (magic tags, tokens) are byte lists.  Go `int` is `Int`; Go `uint8`
values are naturals carried with a `< 256` wellformedness invariant, and
`% 256` is written exactly where Go performs a `uint8(...)` conversion
that may wrap.  A Go function that can panic (index out of range, division
by zero, negative `make`) is embedded with an `Option` layer whose `none`
is the panic.  Fallible functions that return Go `error` values are
embedded with `Except`.
-/

namespace Netpbm

/-- ASCII whitespace as recognised by Go `strings.Fields` / `TrimSpace`:
tab, newline, vertical tab, form feed, carriage return, space. -/
def isWS (b : Nat) : Bool := b = 32 || b = 10 || b = 9 || b = 11 || b = 12 || b = 13

/-- ASCII decimal digit. -/
def isDigit (b : Nat) : Bool := 48 ≤ b && b ≤ 57

/-- Go `strings.TrimSpace` on a byte string. -/
def trimSpace (l : List Nat) : List Nat :=
  ((l.dropWhile (fun b => isWS b)).reverse.dropWhile (fun b => isWS b)).reverse

/-- Worker for `fields`: `acc` is the current token, reversed. -/
def fieldsGo : List Nat → List Nat → List (List Nat)
  | [], acc => if acc.isEmpty then [] else [acc.reverse]
  | b :: bs, acc =>
    if isWS b then
      if acc.isEmpty then fieldsGo bs [] else acc.reverse :: fieldsGo bs []
    else fieldsGo bs (b :: acc)

/-- Go `strings.Fields`: split a byte string around runs of whitespace. -/
def fields (l : List Nat) : List (List Nat) := fieldsGo l []

/-- `bufio.Reader.ReadString('\n')`: the segment up to and including the
first newline, plus the rest of the stream.  `none` when no newline is
found; the callers in PBM.go treat the accompanying `io.EOF` as an error
even though Go also hands back the partial data. -/
def readLine : List Nat → Option (List Nat × List Nat)
  | [] => none
  | b :: bs =>
    if b = 10 then some ([10], bs)
    else (readLine bs).map (fun p => (b :: p.1, p.2))

/-- `bufio.ScanLines` drops one terminal carriage return from a line. -/
def stripCR (l : List Nat) : List Nat :=
  match l.getLast? with
  | some 13 => l.dropLast
  | _ => l

/-- `bufio.MaxScanTokenSize` (64 KiB), the size the scanner's buffer may
grow to: `Scanner.Scan` fails with `ErrTooLong` once this many bytes are
buffered with no newline among them. -/
def maxScanTokenSize : Nat := 65536

/-- Worker for `splitLines`; `acc` is the current line, reversed.  When a
line reaches `maxScanTokenSize` bytes before its newline, `Scan` reports
`ErrTooLong`: that line and all later ones are never delivered (the
`for scanner.Scan()` loop of `ReadPPM` simply ends). -/
def splitLinesGo : List Nat → List Nat → List (List Nat)
  | [], acc => if acc.isEmpty then [] else [stripCR acc.reverse]
  | 10 :: bs, acc => stripCR acc.reverse :: splitLinesGo bs []
  | b :: bs, acc =>
    if maxScanTokenSize ≤ acc.length + 1 then [] else splitLinesGo bs (b :: acc)

/-- `bufio.Scanner` with the default line splitter: the newline-separated
lines of the stream, without their terminators; a final line without a
trailing newline is still produced, a trailing newline produces no empty
final line.  A line of 64 KiB or more overflows the token buffer: the
scan stops there (`ErrTooLong`, which `ReadPPM` never inspects) and no
further lines are produced. -/
def splitLines (l : List Nat) : List (List Nat) := splitLinesGo l []

/-- Decimal value of a digit byte string (most significant first). -/
def digitsVal (l : List Nat) : Nat := l.foldl (fun a d => a * 10 + (d - 48)) 0

/-- Digit-run part of a `%d` verb: at least one digit, value and rest. -/
def scanDigits (neg : Bool) (l : List Nat) : Option (Int × List Nat) :=
  let ds := l.takeWhile (fun b => isDigit b)
  if ds.isEmpty then none
  else
    some ((if neg then -(digitsVal ds : Int) else (digitsVal ds : Int)),
      l.dropWhile (fun b => isDigit b))

/-- Sign-and-digits part of a `%d` verb, after whitespace skipping:
a leading '-' (45) or '+' (43) is consumed, then a digit run. -/
def scanIntCore : List Nat → Option (Int × List Nat)
  | [] => scanDigits false []
  | b :: rest =>
    if b = 45 then scanDigits true rest
    else if b = 43 then scanDigits false rest
    else scanDigits false (b :: rest)

/-- One `%d` verb of Go `fmt.Sscanf`: skip whitespace, optional sign, at
least one digit; yields the value and the unconsumed rest. -/
def scanInt (l : List Nat) : Option (Int × List Nat) :=
  scanIntCore (l.dropWhile (fun b => isWS b))

/-- `fmt.Sscanf(s, "%d %d", &w, &h)` as used by `ReadPBM`, which checks
the returned error: both integers must parse. -/
def sscanfTwoInts (l : List Nat) : Option (Int × Int) :=
  match scanInt l with
  | none => none
  | some (w, r) =>
    match scanInt r with
    | none => none
    | some (h, _) => some (w, h)

/-- `fmt.Sscanf(text, "%d %d", &ppm.width, &ppm.height)` as used by
`ReadPPM`, which discards the error: verbs assign as far as parsing
succeeds, later targets keep their old values. -/
def scanTwoIntsLoose (l : List Nat) (w h : Int) : Int × Int :=
  match scanInt l with
  | none => (w, h)
  | some (w2, r) =>
    match scanInt r with
    | none => (w2, h)
    | some (h2, _) => (w2, h2)

/-- `fmt.Sscanf(text, "%d", &ppm.max)` with a `uint8` target and the error
discarded: the target is assigned only when an integer parses and fits. -/
def scanMaxLoose (l : List Nat) (old : Nat) : Nat :=
  match scanInt l with
  | none => old
  | some (v, _) => if 0 ≤ v ∧ v ≤ 255 then v.toNat else old

/-- `strconv.ParseUint(tok, 10, 8)` with the error discarded, as in the
P3 pixel loop: syntax errors yield 0, range overflow yields the maximum
8-bit value 255. -/
def parseUint8Tok (tok : List Nat) : Nat :=
  if tok.isEmpty then 0
  else if tok.all (fun b => isDigit b) then min (digitsVal tok) 255 else 0

/-- Decimal rendering of a natural, fuelled so that it is structural. -/
def natDigitsAux : Nat → Nat → List Nat
  | 0, _ => []
  | f + 1, n => if n < 10 then [n + 48] else natDigitsAux f (n / 10) ++ [n % 10 + 48]

/-- ASCII bytes of `%d` applied to a natural number. -/
def natDigits (n : Nat) : List Nat := natDigitsAux (n + 1) n

/-- ASCII bytes of `%d` applied to a Go `int`. -/
def intDigits (i : Int) : List Nat :=
  if i < 0 then 45 :: natDigits (-i).toNat else natDigits i.toNat

/-- The struct `PBM` of PBM.go: `data`, `width`, `height`, `magicNumber`. -/
structure PBM where
  data : List (List Bool)
  width : Int
  height : Int
  magicNumber : List Nat
deriving DecidableEq, Repr

/-- The struct `Pixel` of PPM.go: R, G, B, each a `uint8`. -/
structure Pixel where
  R : Nat
  G : Nat
  B : Nat
deriving DecidableEq, Repr

/-- The struct `PPM` of PPM.go. -/
structure PPM where
  data : List (List Pixel)
  width : Int
  height : Int
  magicNumber : List Nat
  max : Nat
deriving DecidableEq, Repr

/-- The struct `PGM` referenced by `PPM.ToPGM`.  PGM.go is not part of
src/; the fields are exactly the ones PPM.go assigns (`data` of byte
rows, `width`, `height`, `magicNumber`, `max`), matching the spec's
collaborator interface `magic, width, height, max, grid-of-bytes`. -/
structure PGM where
  data : List (List Nat)
  width : Int
  height : Int
  magicNumber : List Nat
  max : Nat
deriving DecidableEq, Repr

/-- The struct `Point` of PPM.go. -/
structure Point where
  X : Int
  Y : Int
deriving DecidableEq, Repr

/-- The zero value of `Pixel`, as produced by Go `make`. -/
def zeroPixel : Pixel := ⟨0, 0, 0⟩

/-- Read a cell of a row-major grid (`d[y][x]` in Go). -/
def gridGet {α : Type} (d : List (List α)) (dflt : α) (x y : Nat) : α :=
  (d.getD y []).getD x dflt

/-- Write a cell of a row-major grid (`d[y][x] = v` in Go). -/
def gridSet {α : Type} (d : List (List α)) (x y : Nat) (v : α) : List (List α) :=
  d.set y ((d.getD y []).set x v)

/-- Shape invariant of a two-value image: `data` is `height` rows of
`width` cells and the dimensions are the nonnegative stored fields. -/
def wfPBM (p : PBM) : Prop :=
  0 ≤ p.width ∧ 0 ≤ p.height ∧ p.data.length = p.height.toNat ∧
    ∀ r ∈ p.data, r.length = p.width.toNat

/-- Channels of a pixel are `uint8` values. -/
def wfPixel (px : Pixel) : Prop := px.R < 256 ∧ px.G < 256 ∧ px.B < 256

/-- Shape invariant of a color image: `height` rows of `width` pixels,
all channel values and `max` representable as `uint8`. -/
def wfPPM (p : PPM) : Prop :=
  0 ≤ p.width ∧ 0 ≤ p.height ∧ p.data.length = p.height.toNat ∧
    (∀ r ∈ p.data, r.length = p.width.toNat ∧ ∀ px ∈ r, wfPixel px) ∧ p.max < 256

/-- Shape part of the color-image invariant: `height` rows of `width`
pixels, dimensions nonnegative. -/
def shapePPM (p : PPM) : Prop :=
  0 ≤ p.width ∧ 0 ≤ p.height ∧ p.data.length = p.height.toNat ∧
    ∀ r ∈ p.data, r.length = p.width.toNat

instance (p : PPM) : Decidable (shapePPM p) := by unfold shapePPM; infer_instance

instance (p : PBM) : Decidable (wfPBM p) := by unfold wfPBM; infer_instance

instance (px : Pixel) : Decidable (wfPixel px) := by unfold wfPixel; infer_instance

instance (p : PPM) : Decidable (wfPPM p) := by unfold wfPPM; infer_instance

/-! ## PBM codec (src/PBM.go) -/

/-- The byte string "P1". -/
def magicP1 : List Nat := [80, 49]

/-- The byte string "P4". -/
def magicP4 : List Nat := [80, 52]

/-- The P1 inner pixel loop of `ReadPBM`: walk the fields of one row line
with index `x`, erroring when `x` reaches the width, writing
`field == "1"` into the preallocated row otherwise. -/
def fillRowP1 (width : Int) : List (List Nat) → Nat → List Bool → Except String (List Bool)
  | [], _, row => .ok row
  | f :: fs, x, row =>
    if width ≤ (x : Int) then .error "index out of range at row"
    else fillRowP1 width fs (x + 1) (row.set x (f == [49]))

/-- The P1 row loop of `ReadPBM`: one line per row, fields parsed by
`fillRowP1` into a row preallocated to `w = width` cells. -/
def readRowsP1 (width : Int) (w : Nat) : Nat → List Nat → Except String (List (List Bool))
  | 0, _ => .ok []
  | y + 1, r =>
    match readLine r with
    | none => .error "error reading data at row"
    | some (line, rest) =>
      match fillRowP1 width (fields line) 0 (List.replicate w false) with
      | .error e => .error e
      | .ok row => (readRowsP1 width w y rest).map (fun rows => row :: rows)

/-- The P4 bit extraction of `ReadPBM`: pixel `x` of a packed row is bit
`7 - x % 8` of byte `x / 8` (every index `x < w` of the preallocated row
is assigned once, in order). -/
def unpackRowP4 (rowNats : List Nat) (w : Nat) : List Bool :=
  (List.range w).map (fun x => ((rowNats.getD (x / 8) 0) >>> (7 - x % 8)) &&& 1 != 0)

/-- The P4 row loop of `ReadPBM`: each row reads `(w+7)/8` bytes, with an
error when the stream holds fewer (covering both the `io.EOF` and the
short-read branches of the source). -/
def readRowsP4 (w : Nat) : Nat → List Nat → Except String (List (List Bool) × List Nat)
  | 0, r => .ok ([], r)
  | y + 1, r =>
    let k := (w + 7) / 8
    if r.length < k then .error "unexpected end of file at row"
    else
      match readRowsP4 w y (r.drop k) with
      | .error e => .error e
      | .ok pr => .ok (unpackRowP4 (r.take k) w :: pr.1, pr.2)

/-- `ReadPBM` of PBM.go on a byte stream.  `none` is a Go panic: the
`make` calls panic when the parsed height is negative, or when the height
is positive and the width negative. -/
def readPBM (bs : List Nat) : Option (Except String PBM) :=
  match readLine bs with
  | none => some (.error "error reading magic number")
  | some (l1, r1) =>
    let magic := trimSpace l1
    if magic ≠ magicP1 ∧ magic ≠ magicP4 then some (.error "invalid magic number")
    else
      match readLine r1 with
      | none => some (.error "error reading dimensions")
      | some (l2, r2) =>
        match sscanfTwoInts (trimSpace l2) with
        | none => some (.error "invalid dimensions")
        | some (w, h) =>
          if h < 0 then none
          else if 0 < h ∧ w < 0 then none
          else if magic = magicP1 then
            some ((readRowsP1 w w.toNat h.toNat r2).map (fun rows => ⟨rows, w, h, magic⟩))
          else
            some ((readRowsP4 w.toNat h.toNat r2).map (fun pr => ⟨pr.1, w, h, magic⟩))

/-- `PBM.Size`. -/
def PBM.Size (pbm : PBM) : Int × Int := (pbm.width, pbm.height)

/-- `PBM.At` reads `data[y][x]` with no bounds check; `none` is the Go
panic on an out-of-range index. -/
def PBM.At (pbm : PBM) (x y : Int) : Option Bool :=
  if 0 ≤ y ∧ y < (pbm.data.length : Int) ∧ 0 ≤ x ∧ x < ((pbm.data.getD y.toNat []).length : Int) then
    some (gridGet pbm.data false x.toNat y.toNat)
  else none

/-- `PBM.Set` writes `data[y][x] = value` with no bounds check; `none` is
the Go panic on an out-of-range index. -/
def PBM.Set (pbm : PBM) (x y : Int) (value : Bool) : Option PBM :=
  if 0 ≤ y ∧ y < (pbm.data.length : Int) ∧ 0 ≤ x ∧ x < ((pbm.data.getD y.toNat []).length : Int) then
    some { pbm with data := gridSet pbm.data x.toNat y.toNat value }
  else none

/-- One P1 row of `PBM.Save`: "1 " or "0 " per pixel, newline after. -/
def renderRowP1 (row : List Bool) : List Nat :=
  (row.flatMap fun px => if px then [49, 32] else [48, 32]) ++ [10]

/-- The loop body of the P4 row packing of `PBM.Save`: OR the bit of
pixel `x` into bit `7 - x % 8` of byte `x / 8`. -/
def packStep (row : List Bool) (bytes : List Nat) (x : Nat) : List Nat :=
  bytes.set (x / 8)
    ((bytes.getD (x / 8) 0) ||| ((if row.getD x false then 1 else 0) <<< (7 - x % 8)))

/-- The P4 row packing of `PBM.Save`: bits are OR-ed into a row of
`(w+7)/8` zero bytes, pixel `x` into bit `7 - x % 8` of byte `x / 8`.
(`w` is the nonnegative width; Go's `make` would panic on a negative
width before any byte is written.) -/
def packRowP4 (row : List Bool) (w : Nat) : List Nat :=
  (List.range w).foldl (packStep row) (List.replicate ((w + 7) / 8) 0)

/-- `PBM.Save` of PBM.go: header `magic\n`, `width height\n`, then the
P1 text payload or the P4 packed payload (an unrecognised magic writes
the header only). -/
def savePBM (pbm : PBM) : List Nat :=
  let header := pbm.magicNumber ++ [10] ++ intDigits pbm.width ++ [32] ++ intDigits pbm.height ++ [10]
  if pbm.magicNumber = magicP1 then
    header ++ pbm.data.flatMap renderRowP1
  else if pbm.magicNumber = magicP4 then
    header ++ pbm.data.flatMap (fun row => packRowP4 row pbm.width.toNat)
  else header

/-- `PPM.Size`. -/
def PPM.Size (ppm : PPM) : Int × Int := (ppm.width, ppm.height)

/-- `PPM.At` reads `data[y][x]` with no bounds check; `none` is the Go
panic on an out-of-range index. -/
def PPM.At (ppm : PPM) (x y : Int) : Option Pixel :=
  if 0 ≤ y ∧ y < (ppm.data.length : Int) ∧ 0 ≤ x ∧ x < ((ppm.data.getD y.toNat []).length : Int) then
    some (gridGet ppm.data zeroPixel x.toNat y.toNat)
  else none

/-- `PPM.Set` of PPM.go: the write happens only inside the bounds check
against the `width`/`height` fields; the Boolean is `true` exactly when
the out-of-bounds diagnostic is printed. -/
def PPM.Set (ppm : PPM) (x y : Int) (value : Pixel) : PPM × Bool :=
  if 0 ≤ x ∧ x < ppm.width ∧ 0 ≤ y ∧ y < ppm.height then
    ({ ppm with data := gridSet ppm.data x.toNat y.toNat value }, false)
  else (ppm, true)

/-! ## PPM codec (src/PPM.go) -/

/-- The byte string "P3". -/
def magicP3 : List Nat := [80, 51]

/-- The byte string "P6". -/
def magicP6 : List Nat := [80, 54]

/-- The P3 pixel loop of `ReadPPM` for one text row: `n` counts the
iterations left of `for i := 0; i < ppm.width; i++`.  `none` is a panic:
`val[i*3+2]` past the fields, `data[line]` past the rows, or
`data[line][i]` past the row cells. -/
def storeRowP3Aux (val : List (List Nat)) (line : Nat) :
    Nat → Nat → List (List Pixel) → Option (List (List Pixel))
  | 0, _, d => some d
  | n + 1, i, d =>
    if val.length ≤ i * 3 + 2 then none
    else if d.length ≤ line then none
    else if (d.getD line []).length ≤ i then none
    else
      let r := parseUint8Tok (val.getD (i * 3) [])
      let g := parseUint8Tok (val.getD (i * 3 + 1) [])
      let b := parseUint8Tok (val.getD (i * 3 + 2) [])
      storeRowP3Aux val line n (i + 1) (gridSet d i line ⟨r, g, b⟩)

/-- One row of the P6 pixel fill of `ReadPPM`: `pixelIndex` is the running
`3 * (y * width + x)` of the source; `none` is a panic on an index past
`data` or past `pixelData`. -/
def fillP6Row (pd : List Nat) (w y : Nat) :
    Nat → Nat → List (List Pixel) → Option (List (List Pixel))
  | 0, _, d => some d
  | n + 1, x, d =>
    if d.length ≤ y then none
    else if (d.getD y []).length ≤ x then none
    else
      let idx := 3 * (y * w + x)
      if pd.length ≤ idx + 2 then none
      else
        fillP6Row pd w y n (x + 1)
          (gridSet d x y ⟨pd.getD idx 0, pd.getD (idx + 1) 0, pd.getD (idx + 2) 0⟩)

/-- The row loop of the P6 pixel fill of `ReadPPM`. -/
def fillP6All (pd : List Nat) (w : Nat) :
    Nat → Nat → List (List Pixel) → Option (List (List Pixel))
  | 0, _, d => some d
  | n + 1, y, d =>
    match fillP6Row pd w y w 0 d with
    | none => none
    | some d2 => fillP6All pd w n (y + 1) d2

/-- The scanner loop of `ReadPPM`: comment lines are skipped, then the
first line becomes the magic tag, the next parsed line the dimensions
(retried while `width == 0`, reallocating `data` each visit), the next
the max value (retried while `max == 0`), and the remaining lines P3
pixel rows — or, for P6, one line triggers reading the pixel payload from
the tail of the whole file and a `break`.  Sscanf errors are discarded.
`none` is a Go panic (negative `make`, index out of range). -/
def readPPMLoop (all : List Nat) : List (List Nat) → PPM → Nat → Option PPM
  | [], ppm, _ => some ppm
  | text :: rest, ppm, line =>
    if text.head? = some 35 then readPPMLoop all rest ppm line
    else if ppm.magicNumber = [] then
      readPPMLoop all rest { ppm with magicNumber := trimSpace text } line
    else if ppm.width = 0 then
      let wh := scanTwoIntsLoose text ppm.width ppm.height
      let w2 := wh.1
      let h2 := wh.2
      if h2 < 0 then none
      else if 0 < h2 ∧ w2 < 0 then none
      else
        readPPMLoop all rest
          { ppm with
            width := w2
            height := h2
            data := List.replicate h2.toNat (List.replicate w2.toNat zeroPixel) } line
    else if ppm.max = 0 then
      readPPMLoop all rest { ppm with max := scanMaxLoose text ppm.max } line
    else if ppm.magicNumber = magicP3 then
      match storeRowP3Aux (fields text) line ppm.width.toNat 0 ppm.data with
      | none => none
      | some d2 => readPPMLoop all rest { ppm with data := d2 } (line + 1)
    else if ppm.magicNumber = magicP6 then
      let n := (ppm.width * ppm.height * 3).toNat
      if all.length < n then none
      else
        match fillP6All (all.drop (all.length - n)) ppm.width.toNat ppm.height.toNat 0 ppm.data with
        | none => none
        | some d2 => some { ppm with data := d2 }
    else readPPMLoop all rest ppm line

/-- `ReadPPM` of PPM.go on a byte stream (the file named by `filename`).
The zero-valued `&PPM` literal starts the loop, `line` starts at 0;
the function itself never returns a Go error on an in-memory stream, so
the result is `some` of an image unless a panic occurs. -/
def readPPM (all : List Nat) : Option PPM :=
  readPPMLoop all (splitLines all) ⟨[], 0, 0, [], 0⟩ 0

/-- `PPM.Save` of PPM.go: `magic\n`, `width height\n`, `max\n`, then the
P3 text payload ("R G B " per pixel, newline per row) or the P6 raw
payload (three bytes per pixel, row-major, no separators); an
unrecognised magic writes the header only. -/
def savePPM (ppm : PPM) : List Nat :=
  let header := ppm.magicNumber ++ [10] ++ intDigits ppm.width ++ [32] ++
    intDigits ppm.height ++ [10] ++ natDigits ppm.max ++ [10]
  if ppm.magicNumber = magicP3 then
    header ++ (List.range ppm.height.toNat).flatMap (fun y =>
      ((List.range ppm.width.toNat).flatMap (fun x =>
        let px := gridGet ppm.data zeroPixel x y
        natDigits px.R ++ [32] ++ natDigits px.G ++ [32] ++ natDigits px.B ++ [32])) ++ [10])
  else if ppm.magicNumber = magicP6 then
    header ++ (List.range ppm.height.toNat).flatMap (fun y =>
      (List.range ppm.width.toNat).flatMap (fun x =>
        let px := gridGet ppm.data zeroPixel x y
        [px.R, px.G, px.B]))
  else header

/-! ## Transforms (src/PPM.go) -/

/-- One pixel of `PPM.SetMaxValue`: each channel becomes
`uint8(int(c) * int(mv) / int(oldMax))`; the `uint8` conversion wraps. -/
def rescalePixel (px : Pixel) (mv oldMax : Nat) : Pixel :=
  ⟨px.R * mv / oldMax % 256, px.G * mv / oldMax % 256, px.B * mv / oldMax % 256⟩

/-- `PPM.SetMaxValue` of PPM.go: a zero argument is coerced to 1, every
pixel is rescaled against the old max, the `max` field is replaced.
`none` is the Go division-by-zero panic, reached exactly when the loop
body runs (both dimensions positive) with the old max zero. -/
def PPM.SetMaxValue (ppm : PPM) (maxValue : Nat) : Option PPM :=
  let mv := if maxValue = 0 then 1 else maxValue
  if ppm.max = 0 ∧ 0 < ppm.height ∧ 0 < ppm.width then none
  else
    some { ppm with
      data := (List.range ppm.height.toNat).foldl (fun d y =>
        (List.range ppm.width.toNat).foldl (fun d2 x =>
          gridSet d2 x y (rescalePixel (gridGet d2 zeroPixel x y) mv ppm.max)) d) ppm.data,
      max := mv }

/-- The inner loop body of `PPM.Rotate90CW`:
`rotatedData[x][height-1-y] = ppm.data[y][x]` (row `x`, column `h-1-y`
of the new grid receives cell `(x, y)` of the source). -/
def rotStep (src : List (List Pixel)) (h y : Nat) (d2 : List (List Pixel)) (x : Nat) :
    List (List Pixel) :=
  gridSet d2 (h - 1 - y) x (gridGet src zeroPixel x y)

/-- The outer loop body of `PPM.Rotate90CW`: one pass of the inner loop
over `x < width` for a fixed `y`. -/
def rotOuter (src : List (List Pixel)) (h w : Nat) (d : List (List Pixel)) (y : Nat) :
    List (List Pixel) :=
  (List.range w).foldl (rotStep src h y) d

/-- `PPM.Rotate90CW` of PPM.go: a fresh `width`-row, `height`-column grid
receives `rotatedData[x][height-1-y] = data[y][x]` for every cell, then
replaces the image's grid while width and height swap. -/
def PPM.Rotate90CW (ppm : PPM) : PPM :=
  let h := ppm.height.toNat
  let w := ppm.width.toNat
  let rotated := (List.range h).foldl (rotOuter ppm.data h w)
    (List.replicate w (List.replicate h zeroPixel))
  { ppm with data := rotated, width := ppm.height, height := ppm.width }

/-- `PPM.ToPGM` of PPM.go: a new gray image with magic "P2", the same
dimensions, max clamped into `uint8` range, and each cell the gray value
`uint8((int(r)+int(g)+int(b))/3)` (row appending is a map over rows). -/
def PPM.ToPGM (ppm : PPM) : PGM :=
  { data := ppm.data.map (fun row => row.map (fun px => (px.R + px.G + px.B) / 3 % 256)),
    width := ppm.width, height := ppm.height, magicNumber := [80, 50],
    max := if 255 < ppm.max then 255 else ppm.max }

/-- `PPM.ToPBM` of PPM.go: a new two-value image with magic "P1", the same
dimensions, a cell set exactly when `uint8((int(r)+int(g)+int(b))/3)` is
strictly below `maxValue / 2` (`threshold = 2`; `maxValue := uint8(ppm.max)`
is the identity on a `uint8` field). -/
def PPM.ToPBM (ppm : PPM) : PBM :=
  { data := ppm.data.map (fun row => row.map (fun px =>
      decide ((px.R + px.G + px.B) / 3 % 256 < ppm.max / 2))),
    width := ppm.width, height := ppm.height, magicNumber := magicP1 }

/-- The method call `ppm.ToPGM()` as a state transformer on the receiver:
the source only reads `ppm`, so the receiver after the call is returned
unchanged alongside the new image. -/
def PPM.ToPGMCall (ppm : PPM) : PPM × PGM := (ppm, ppm.ToPGM)

/-- The method call `ppm.ToPBM()` as a state transformer on the receiver. -/
def PPM.ToPBMCall (ppm : PPM) : PPM × PBM := (ppm, ppm.ToPBM)

/-! ## Rasterizer (src/PPM.go) -/

/-- `abs` of PPM.go. -/
def abs (x : Int) : Int := if x < 0 then -x else x

/-- `sign` of PPM.go. -/
def sign (x : Int) : Int := if 0 < x then 1 else if x < 0 then -1 else 0

/-- The loop of `PPM.DrawLine`, fuelled: plot the current point when it
lies inside the `width`/`height` bounds, stop at `p2`, otherwise make the
error-accumulation step (`e2 > -deltaY` advances x, `e2 < deltaX`
advances y, with the error updated sequentially).  `none` means the fuel
ran out before `p2` was reached. -/
def lineLoop (w h : Int) (c : Pixel) (p2 : Point) (dX dY sx sy : Int) :
    Nat → Int → Int → Int → List (List Pixel) → Option (List (List Pixel))
  | 0, _, _, _, _ => none
  | fuel + 1, x, y, e, d =>
    let d2 := if 0 ≤ x ∧ x < w ∧ 0 ≤ y ∧ y < h then gridSet d x.toNat y.toNat c else d
    if x = p2.X ∧ y = p2.Y then some d2
    else
      let e2 := 2 * e
      let x2 := if -dY < e2 then x + sx else x
      let e3 := if -dY < e2 then e - dY else e
      let y2 := if e2 < dX then y + sy else y
      let e4 := if e2 < dX then e3 + dX else e3
      lineLoop w h c p2 dX dY sx sy fuel x2 y2 e4 d2

/-- `PPM.DrawLine` as the fuelled loop, with fuel `deltaX + deltaY + 1`
(the termination argument shows this fuel always suffices). -/
def drawLineOpt (ppm : PPM) (p1 p2 : Point) (color : Pixel) : Option (List (List Pixel)) :=
  let dX := abs (p2.X - p1.X)
  let dY := abs (p2.Y - p1.Y)
  lineLoop ppm.width ppm.height color p2 dX dY (sign (p2.X - p1.X)) (sign (p2.Y - p1.Y))
    (dX + dY + 1).toNat p1.X p1.Y (dX - dY) ppm.data

/-- `PPM.DrawLine` of PPM.go. -/
def PPM.DrawLine (ppm : PPM) (p1 p2 : Point) (color : Pixel) : PPM :=
  { ppm with data := (drawLineOpt ppm p1 p2 color).getD ppm.data }

/-- One axis-by-axis step of `PPM.DrawFilledTriangle`: x and y of `p1`
move one unit toward `p2` independently. -/
def triStep (p1 p2 : Point) : Point :=
  ⟨if p1.X ≠ p2.X ∧ p1.X < p2.X then p1.X + 1
    else if p1.X ≠ p2.X ∧ p2.X < p1.X then p1.X - 1 else p1.X,
   if p1.Y ≠ p2.Y ∧ p1.Y < p2.Y then p1.Y + 1
    else if p1.Y ≠ p2.Y ∧ p2.Y < p1.Y then p1.Y - 1 else p1.Y⟩

/-- The loop of `PPM.DrawFilledTriangle`, fuelled: while `p1 ≠ p2`, draw
the `p3`–`p1` line and step `p1` toward `p2`; on exit draw the final
`p3`–`p1` line.  `none` means the fuel ran out. -/
def triLoop (p2 p3 : Point) (color : Pixel) : Nat → Point → PPM → Option PPM
  | 0, _, _ => none
  | fuel + 1, p1, ppm =>
    if p1 = p2 then some (ppm.DrawLine p3 p1 color)
    else triLoop p2 p3 color fuel (triStep p1 p2) (ppm.DrawLine p3 p1 color)

/-- `PPM.DrawFilledTriangle` of PPM.go, with fuel
`|p2.X - p1.X| + |p2.Y - p1.Y| + 1` (shown sufficient by the termination
theorem). -/
def PPM.DrawFilledTriangle (ppm : PPM) (p1 p2 p3 : Point) (color : Pixel) : Option PPM :=
  triLoop p2 p3 color ((abs (p2.X - p1.X) + abs (p2.Y - p1.Y) + 1).toNat) p1 ppm

/-! ## Lemmas on grids -/

theorem getD_set {α : Type} (l : List α) (i j : Nat) (v dflt : α) :
    (l.set i v).getD j dflt = if i = j ∧ i < l.length then v else l.getD j dflt := by
  rw [List.getD_eq_getElem?_getD, List.getD_eq_getElem?_getD, List.getElem?_set]
  rcases Nat.lt_or_ge j l.length with h2 | h2
  · by_cases h1 : i = j <;> simp [h1, h2]
  · by_cases h1 : i = j
    · subst h1
      simp [Nat.lt_irrefl, List.getElem?_eq_none h2, Nat.not_lt.2 h2]
    · simp [h1]

theorem length_gridSet {α : Type} (d : List (List α)) (x y : Nat) (v : α) :
    (gridSet d x y v).length = d.length := List.length_set d y _

theorem rows_gridSet {α : Type} {d : List (List α)} {n : Nat} (x y : Nat) (v : α)
    (h : ∀ r ∈ d, r.length = n) : ∀ r ∈ gridSet d x y v, r.length = n := by
  intro r hr
  rcases Nat.lt_or_ge y d.length with hy | hy
  · rcases List.mem_or_eq_of_mem_set hr with h1 | h1
    · exact h r h1
    · subst h1
      rw [List.length_set]
      exact h _ (by rw [List.getD_eq_getElem _ _ hy]; exact List.getElem_mem hy)
  · unfold gridSet at hr
    rw [List.set_eq_of_length_le hy] at hr
    exact h r hr

theorem gridGet_gridSet {α : Type} (d : List (List α)) (dflt v : α) (x y x2 y2 : Nat)
    (hy : y2 < d.length) (hx : x2 < (d.getD y2 []).length) :
    gridGet (gridSet d x2 y2 v) dflt x y =
      if x = x2 ∧ y = y2 then v else gridGet d dflt x y := by
  unfold gridGet gridSet
  rw [getD_set]
  by_cases hyy : y2 = y
  · subst hyy
    rw [if_pos ⟨rfl, hy⟩, getD_set]
    by_cases hxx : x = x2
    · subst hxx
      rw [if_pos ⟨rfl, hx⟩, if_pos ⟨rfl, rfl⟩]
    · rw [if_neg (by tauto), if_neg (by tauto)]
  · rw [if_neg (by tauto), if_neg (by tauto)]

/-! ## Theorems for the claims about Set (C2) -/

/-- C2, counterexample: on a 2×2 two-value image, `Set(2, 0, true)` is an
out-of-range write that hits the unchecked `pbm.data[y][x] = value` of
PBM.go and panics (a fatal runtime error), contradicting the claim that an
out-of-range `Set` on every image kind is a non-fatal no-op. -/
theorem pbmSet_oob_panics :
    PBM.Set ⟨[[false, false], [false, false]], 2, 2, magicP1⟩ 2 0 true = none := by decide

/-- C2, amended: out-of-range `Set` is a diagnostic-carrying no-op for
color images (`PPM.Set` checks bounds and prints), while for two-value
images `PBM.Set` performs no bounds check and an out-of-range call is a
fatal index-out-of-range panic. -/
theorem set_oob_amended :
    (∀ (ppm : PPM) (x y : Int) (v : Pixel),
      (x < 0 ∨ ppm.width ≤ x ∨ y < 0 ∨ ppm.height ≤ y) →
      PPM.Set ppm x y v = (ppm, true)) ∧
    (∀ (pbm : PBM) (x y : Int) (v : Bool), wfPBM pbm →
      (x < 0 ∨ pbm.width ≤ x ∨ y < 0 ∨ pbm.height ≤ y) →
      PBM.Set pbm x y v = none) := by
  constructor
  · intro ppm x y v hoob
    unfold PPM.Set
    rw [if_neg]
    omega
  · intro pbm x y v hwf hoob
    obtain ⟨hw0, hh0, hlen, hrows⟩ := hwf
    unfold PBM.Set
    rw [if_neg]
    intro hin
    obtain ⟨hy0, hylt, hx0, hxlt⟩ := hin
    have hyn : y.toNat < pbm.data.length := by omega
    have hrl : (pbm.data.getD y.toNat []).length = pbm.width.toNat := by
      rw [List.getD_eq_getElem _ _ hyn]
      exact hrows _ (List.getElem_mem hyn)
    rw [hrl] at hxlt
    omega

/-- C2 witness: the amended theorem at concrete images. -/
theorem set_oob_amended_witness :
    PPM.Set ⟨[[⟨1, 2, 3⟩]], 1, 1, magicP3, 255⟩ 1 0 ⟨7, 7, 7⟩ =
      (⟨[[⟨1, 2, 3⟩]], 1, 1, magicP3, 255⟩, true) ∧
    PBM.Set ⟨[[true]], 1, 1, magicP1⟩ 0 (-1) false = none :=
  ⟨set_oob_amended.1 ⟨[[⟨1, 2, 3⟩]], 1, 1, magicP3, 255⟩ 1 0 ⟨7, 7, 7⟩ (by decide),
   set_oob_amended.2 ⟨[[true]], 1, 1, magicP1⟩ 0 (-1) false (by decide) (by decide)⟩

theorem gridGet_map {α β : Type} (f : α → β) (d : List (List α)) (da : α) (db : β) (x y : Nat)
    (hy : y < d.length) (hx : x < (d.getD y []).length) :
    gridGet (d.map (fun row => row.map f)) db x y = f (gridGet d da x y) := by
  unfold gridGet
  have hy1 : y < (d.map (fun row => row.map f)).length := by simpa using hy
  have hrow : (d.map (fun row => row.map f)).getD y [] = (d.getD y []).map f := by
    rw [List.getD_eq_getElem _ _ hy1, List.getD_eq_getElem _ _ hy, List.getElem_map]
  rw [hrow]
  have hx1 : x < ((d.getD y []).map f).length := by simpa using hx
  rw [List.getD_eq_getElem _ _ hx1, List.getD_eq_getElem _ _ hx, List.getElem_map]

theorem gridGet_mem {α : Type} (d : List (List α)) (da : α) (x y : Nat)
    (hy : y < d.length) (hx : x < (d.getD y []).length) :
    ∃ r ∈ d, gridGet d da x y ∈ r := by
  refine ⟨d.getD y [], ?_, ?_⟩
  · rw [List.getD_eq_getElem _ _ hy]; exact List.getElem_mem hy
  · unfold gridGet
    rw [List.getD_eq_getElem _ _ hx]
    exact List.getElem_mem hx

/-! ## Theorems for the conversion claims (C6, C9) -/

/-- C6: on a color image with max value 100, `ToPBM` marks a pixel as set
(foreground) exactly when the truncating integer average `(R+G+B)/3` is
strictly below `max/2 = 50`; the 49-average-foreground /
50-average-background boundary cases are checked in the witness. -/
theorem toPBM_threshold (ppm : PPM) (hm : ppm.max = 100)
    (hpx : ∀ r ∈ ppm.data, ∀ px ∈ r, wfPixel px) (x y : Nat)
    (hy : y < ppm.data.length) (hx : x < (ppm.data.getD y []).length) :
    gridGet (PPM.ToPBM ppm).data false x y =
      decide (((gridGet ppm.data zeroPixel x y).R + (gridGet ppm.data zeroPixel x y).G +
        (gridGet ppm.data zeroPixel x y).B) / 3 < 50) := by
  obtain ⟨r, hr, hpxr⟩ := gridGet_mem ppm.data zeroPixel x y hy hx
  obtain ⟨h1, h2, h3⟩ := hpx r hr _ hpxr
  have hdata : (PPM.ToPBM ppm).data = ppm.data.map (fun row => row.map (fun px =>
      decide ((px.R + px.G + px.B) / 3 % 256 < ppm.max / 2))) := rfl
  rw [hdata, gridGet_map _ ppm.data zeroPixel false x y hy hx, hm]
  have hlt : ((gridGet ppm.data zeroPixel x y).R + (gridGet ppm.data zeroPixel x y).G +
      (gridGet ppm.data zeroPixel x y).B) / 3 < 256 := by omega
  rw [Nat.mod_eq_of_lt hlt]

/-- C6 witness: the threshold theorem at a concrete max-100 image whose
two pixels average 49 (becomes foreground) and 50 (becomes background). -/
theorem toPBM_threshold_witness :
    gridGet (PPM.ToPBM ⟨[[⟨49, 49, 49⟩, ⟨50, 50, 50⟩]], 2, 1, magicP3, 100⟩).data false 0 0 = true ∧
    gridGet (PPM.ToPBM ⟨[[⟨49, 49, 49⟩, ⟨50, 50, 50⟩]], 2, 1, magicP3, 100⟩).data false 1 0 = false := by
  constructor
  · rw [toPBM_threshold ⟨[[⟨49, 49, 49⟩, ⟨50, 50, 50⟩]], 2, 1, magicP3, 100⟩ rfl
      (by decide) 0 0 (by decide) (by decide)]
    decide
  · rw [toPBM_threshold ⟨[[⟨49, 49, 49⟩, ⟨50, 50, 50⟩]], 2, 1, magicP3, 100⟩ rfl
      (by decide) 1 0 (by decide) (by decide)]
    decide

/-- C9: the gray and the two-value conversion are pure derivations: the
receiver comes back unchanged from the call, the new images are of the
other pixel variants with magic "P2" / "P1", the source dimensions (and,
for gray, the uint8-clamped max) are copied, and every gray cell is the
truncating integer average `(R+G+B)/3` of the corresponding source pixel. -/
theorem conversions_pure (ppm : PPM) (hpx : ∀ r ∈ ppm.data, ∀ px ∈ r, wfPixel px) :
    (PPM.ToPGMCall ppm).1 = ppm ∧ (PPM.ToPBMCall ppm).1 = ppm ∧
    (PPM.ToPGM ppm).magicNumber = [80, 50] ∧
    (PPM.ToPGM ppm).width = ppm.width ∧ (PPM.ToPGM ppm).height = ppm.height ∧
    (PPM.ToPGM ppm).max = (if 255 < ppm.max then 255 else ppm.max) ∧
    (PPM.ToPBM ppm).magicNumber = magicP1 ∧
    (PPM.ToPBM ppm).width = ppm.width ∧ (PPM.ToPBM ppm).height = ppm.height ∧
    ∀ x y, y < ppm.data.length → x < (ppm.data.getD y []).length →
      gridGet (PPM.ToPGM ppm).data 0 x y =
        ((gridGet ppm.data zeroPixel x y).R + (gridGet ppm.data zeroPixel x y).G +
          (gridGet ppm.data zeroPixel x y).B) / 3 := by
  refine ⟨rfl, rfl, rfl, rfl, rfl, rfl, rfl, rfl, rfl, ?_⟩
  intro x y hy hx
  obtain ⟨r, hr, hpxr⟩ := gridGet_mem ppm.data zeroPixel x y hy hx
  obtain ⟨h1, h2, h3⟩ := hpx r hr _ hpxr
  have hdata : (PPM.ToPGM ppm).data = ppm.data.map (fun row => row.map (fun px =>
      (px.R + px.G + px.B) / 3 % 256)) := rfl
  rw [hdata, gridGet_map _ ppm.data zeroPixel 0 x y hy hx]
  have hlt : ((gridGet ppm.data zeroPixel x y).R + (gridGet ppm.data zeroPixel x y).G +
      (gridGet ppm.data zeroPixel x y).B) / 3 < 256 := by omega
  rw [Nat.mod_eq_of_lt hlt]

/-- C9 witness: the purity theorem at a concrete image. -/
theorem conversions_pure_witness :
    (PPM.ToPGMCall ⟨[[⟨10, 20, 31⟩]], 1, 1, magicP3, 255⟩).1 =
      ⟨[[⟨10, 20, 31⟩]], 1, 1, magicP3, 255⟩ ∧
    gridGet (PPM.ToPGM ⟨[[⟨10, 20, 31⟩]], 1, 1, magicP3, 255⟩).data 0 0 0 =
      ((gridGet (⟨[[⟨10, 20, 31⟩]], 1, 1, magicP3, 255⟩ : PPM).data zeroPixel 0 0).R +
        (gridGet (⟨[[⟨10, 20, 31⟩]], 1, 1, magicP3, 255⟩ : PPM).data zeroPixel 0 0).G +
        (gridGet (⟨[[⟨10, 20, 31⟩]], 1, 1, magicP3, 255⟩ : PPM).data zeroPixel 0 0).B) / 3 :=
  ⟨(conversions_pure ⟨[[⟨10, 20, 31⟩]], 1, 1, magicP3, 255⟩ (by decide)).1,
   (conversions_pure ⟨[[⟨10, 20, 31⟩]], 1, 1, magicP3, 255⟩ (by decide)).2.2.2.2.2.2.2.2.2
     0 0 (by decide) (by decide)⟩

/-! ## Theorems for the max-value claim (C8) -/

/-- C8, counterexample: decoding the color stream "P3\n1 1\n0\n0 0 0\n",
whose max header field is 0, yields an image whose max field is still 0 —
the color decoder never coerces a zero max to 1. -/
theorem readPPM_zero_max_counterexample :
    (readPPM ([80, 51, 10] ++ [49, 32, 49, 10] ++ [48, 10] ++
      [48, 32, 48, 32, 48, 10])).map PPM.max = some 0 := by decide

/-- C8, amended: after `SetMaxValue` (the max-value rescale) the max field
is never zero — a zero argument is coerced to 1; the decoder, by
contrast, offers no such guarantee (see the counterexample). -/
theorem setMaxValue_nonzero (ppm : PPM) (mv : Nat) (img : PPM)
    (h : PPM.SetMaxValue ppm mv = some img) : img.max ≠ 0 := by
  unfold PPM.SetMaxValue at h
  by_cases h0 : ppm.max = 0 ∧ 0 < ppm.height ∧ 0 < ppm.width
  · rw [if_pos h0] at h
    exact absurd h (by simp)
  · rw [if_neg h0] at h
    have himg := (Option.some.injEq _ _).mp h
    have : img.max = if mv = 0 then 1 else mv := by rw [← himg]
    rw [this]
    by_cases hmv : mv = 0 <;> simp [hmv]

/-- C8 witness: the amended theorem at a concrete rescale by 0. -/
theorem setMaxValue_nonzero_witness :
    (⟨[[⟨0, 0, 0⟩]], 1, 1, magicP3, 1⟩ : PPM).max ≠ 0 :=
  setMaxValue_nonzero ⟨[[⟨5, 5, 5⟩]], 1, 1, magicP3, 10⟩ 0
    ⟨[[⟨0, 0, 0⟩]], 1, 1, magicP3, 1⟩ (by decide)

/-! ## Lemmas on the P4 bit packing (C4 and the binary round trip) -/

theorem packFold_len (row : List Bool) (w : Nat) (n : Nat) :
    ((List.range n).foldl (packStep row) (List.replicate ((w + 7) / 8) 0)).length =
      (w + 7) / 8 := by
  induction n with
  | zero => simp
  | succ n ih =>
    rw [List.range_succ, List.foldl_append, List.foldl_cons, List.foldl_nil, packStep,
      List.length_set, ih]

theorem packFold_testBit (row : List Bool) (w : Nat) :
    ∀ n, n ≤ w → ∀ x, x / 8 < (w + 7) / 8 →
      (((List.range n).foldl (packStep row) (List.replicate ((w + 7) / 8) 0)).getD
        (x / 8) 0).testBit (7 - x % 8) = (decide (x < n) && row.getD x false) := by
  intro n
  induction n with
  | zero =>
    intro _ x hx
    simp only [List.range_zero, List.foldl_nil]
    have h0 : (List.replicate ((w + 7) / 8) 0).getD (x / 8) 0 = 0 := by
      rw [List.getD_eq_getElem?_getD, List.getElem?_replicate]
      split <;> rfl
    rw [h0, Nat.zero_testBit]
    simp
  | succ n ih =>
    intro hn x hx
    rw [List.range_succ, List.foldl_append, List.foldl_cons, List.foldl_nil]
    have hlen := packFold_len row w n
    have hjlt : n / 8 < (w + 7) / 8 := by omega
    rw [packStep, getD_set]
    by_cases hj : n / 8 = x / 8
    · rw [if_pos ⟨hj, by omega⟩, Nat.testBit_or]
      by_cases hxn : x = n
      · subst hxn
        rw [ih (by omega) x hx]
        cases hb : row.getD x false
        · simp
        · simp [Nat.shiftLeft_eq, Nat.testBit_two_pow]
      · have hkne : ¬(7 - n % 8 = 7 - x % 8) := by omega
        have hsh : ((if row.getD n false then 1 else 0) <<< (7 - n % 8)).testBit (7 - x % 8) =
            false := by
          cases hb : row.getD n false
          · simp
          · simp [Nat.shiftLeft_eq, Nat.testBit_two_pow, hkne]
        rw [hj, ih (by omega) x hx, hsh]
        have hdn : decide (x < n) = decide (x < n + 1) := decide_eq_decide.mpr (by omega)
        simp [hdn]
    · rw [if_neg (by tauto), ih (by omega) x hx]
      have hxn : ¬ x = n := by omega
      have hdn : decide (x < n) = decide (x < n + 1) := decide_eq_decide.mpr (by omega)
      rw [hdn]

/-- C4: the binary two-value encoder packs each row at 1 bit per pixel,
MSB first (pixel `x` is bit `7 - x % 8` of byte `x / 8`), into exactly
`(w+7)/8 = ceil(w/8)` bytes per row, with all padding bits past the width
zero; and a fully-set row of width 10 packs to the bytes 0xFF, 0xC0. -/
theorem packRowP4_spec :
    (∀ (row : List Bool) (w : Nat), (packRowP4 row w).length = (w + 7) / 8) ∧
    (∀ (row : List Bool) (w x : Nat), x < w →
      ((packRowP4 row w).getD (x / 8) 0).testBit (7 - x % 8) = row.getD x false) ∧
    (∀ (row : List Bool) (w x : Nat), w ≤ x → x < 8 * ((w + 7) / 8) →
      ((packRowP4 row w).getD (x / 8) 0).testBit (7 - x % 8) = false) ∧
    packRowP4 (List.replicate 10 true) 10 = [255, 192] := by
  refine ⟨fun row w => packFold_len row w w, fun row w x hx => ?_, fun row w x hw hx => ?_, by decide⟩
  · rw [packRowP4, packFold_testBit row w w (le_refl w) x (by omega)]
    simp [hx]
  · rw [packRowP4, packFold_testBit row w w (le_refl w) x (by omega)]
    simp [Nat.not_lt.2 hw]

/-- C4 witness: the packing theorem applied at width 10. -/
theorem packRowP4_spec_witness :
    (packRowP4 (List.replicate 10 true) 10).length = (10 + 7) / 8 ∧
    ((packRowP4 (List.replicate 10 true) 10).getD (9 / 8) 0).testBit (7 - 9 % 8) =
      (List.replicate 10 true).getD 9 false ∧
    ((packRowP4 (List.replicate 10 true) 10).getD (10 / 8) 0).testBit (7 - 10 % 8) = false :=
  ⟨packRowP4_spec.1 (List.replicate 10 true) 10,
   packRowP4_spec.2.1 (List.replicate 10 true) 10 9 (by decide),
   packRowP4_spec.2.2.1 (List.replicate 10 true) 10 10 (by decide) (by decide)⟩

/-! ## Lemmas on rotation (C7) -/

theorem gridGet_replicate {α : Type} (w h x y : Nat) (v : α) :
    gridGet (List.replicate w (List.replicate h v)) v x y = v := by
  unfold gridGet
  have hrow : (List.replicate w (List.replicate h v)).getD y [] =
      List.replicate (if y < w then h else 0) v := by
    rw [List.getD_eq_getElem?_getD, List.getElem?_replicate]
    by_cases hy : y < w
    · rw [if_pos hy, if_pos hy]; rfl
    · rw [if_neg hy, if_neg hy]; rfl
  rw [hrow, List.getD_eq_getElem?_getD, List.getElem?_replicate]
  split <;> split <;> rfl

theorem foldl_rotStep_length (src : List (List Pixel)) (h y : Nat) (xs : List Nat) :
    ∀ d, (xs.foldl (rotStep src h y) d).length = d.length := by
  induction xs with
  | nil => intro d; rfl
  | cons x xs ih =>
    intro d
    rw [List.foldl_cons, ih, rotStep, length_gridSet]

theorem foldl_rotStep_rows (src : List (List Pixel)) (h y n : Nat) (xs : List Nat) :
    ∀ d, (∀ r ∈ d, r.length = n) → ∀ r ∈ xs.foldl (rotStep src h y) d, r.length = n := by
  induction xs with
  | nil => intro d hd; exact hd
  | cons x xs ih =>
    intro d hd
    rw [List.foldl_cons]
    exact ih _ (rows_gridSet _ _ _ hd)

theorem rotStep_fold_get (src : List (List Pixel)) (h w y : Nat) :
    ∀ n, n ≤ w → ∀ d, d.length = w → (∀ r ∈ d, r.length = h) →
      ∀ i j, i < w → j < h →
        gridGet ((List.range n).foldl (rotStep src h y) d) zeroPixel j i =
          if i < n ∧ j = h - 1 - y then gridGet src zeroPixel i y
          else gridGet d zeroPixel j i := by
  intro n
  induction n with
  | zero =>
    intro _ d _ _ i j _ _
    rw [List.range_zero, List.foldl_nil, if_neg (by omega)]
  | succ n ih =>
    intro hn d hd hrows i j hi hj
    rw [List.range_succ, List.foldl_append, List.foldl_cons, List.foldl_nil]
    have hlen : ((List.range n).foldl (rotStep src h y) d).length = w := by
      rw [foldl_rotStep_length, hd]
    have hrows2 : ∀ r ∈ (List.range n).foldl (rotStep src h y) d, r.length = h :=
      foldl_rotStep_rows src h y h (List.range n) d hrows
    have hnw : n < ((List.range n).foldl (rotStep src h y) d).length := by omega
    have hcol : h - 1 - y < (((List.range n).foldl (rotStep src h y) d).getD n []).length := by
      rw [List.getD_eq_getElem _ _ hnw]
      rw [hrows2 _ (List.getElem_mem hnw)]
      omega
    rw [rotStep, gridGet_gridSet _ _ _ _ _ _ _ hnw hcol, ih (by omega) d hd hrows i j hi hj]
    by_cases hji : j = h - 1 - y ∧ i = n
    · rw [if_pos hji, if_pos (by omega), hji.2]
    · rw [if_neg hji]
      by_cases hc1 : i < n ∧ j = h - 1 - y
      · rw [if_pos hc1, if_pos (by omega)]
      · rw [if_neg hc1, if_neg (by omega)]

theorem rotOuter_fold_shape (src : List (List Pixel)) (h w : Nat) :
    ∀ m, (((List.range m).foldl (rotOuter src h w)
        (List.replicate w (List.replicate h zeroPixel))).length = w ∧
      ∀ r ∈ (List.range m).foldl (rotOuter src h w)
        (List.replicate w (List.replicate h zeroPixel)), r.length = h) := by
  intro m
  induction m with
  | zero =>
    refine ⟨by simp, ?_⟩
    intro r hr
    rw [List.eq_of_mem_replicate hr]
    exact List.length_replicate h zeroPixel
  | succ m ih =>
    rw [List.range_succ, List.foldl_append, List.foldl_cons, List.foldl_nil]
    refine ⟨?_, ?_⟩
    · rw [rotOuter, foldl_rotStep_length, ih.1]
    · exact foldl_rotStep_rows src h m h (List.range w) _ ih.2

theorem rotOuter_fold_get (src : List (List Pixel)) (h w : Nat) :
    ∀ m, m ≤ h → ∀ i j, i < w → j < h →
      gridGet ((List.range m).foldl (rotOuter src h w)
          (List.replicate w (List.replicate h zeroPixel))) zeroPixel j i =
        if h - m ≤ j then gridGet src zeroPixel i (h - 1 - j) else zeroPixel := by
  intro m
  induction m with
  | zero =>
    intro _ i j _ hj
    rw [List.range_zero, List.foldl_nil, if_neg (by omega), gridGet_replicate]
  | succ m ih =>
    intro hm i j hi hj
    rw [List.range_succ, List.foldl_append, List.foldl_cons, List.foldl_nil, rotOuter]
    have hsh := rotOuter_fold_shape src h w m
    rw [rotStep_fold_get src h w m w (le_refl w) _ hsh.1 hsh.2 i j hi hj]
    rw [ih (by omega) i j hi hj]
    by_cases hc : i < w ∧ j = h - 1 - m
    · rw [if_pos hc, if_pos (by omega)]
      have : h - 1 - j = m := by omega
      rw [this]
    · rw [if_neg hc]
      by_cases hc2 : h - m ≤ j
      · rw [if_pos hc2, if_pos (by omega)]
      · rw [if_neg hc2, if_neg (by omega)]

theorem rotate_shape (ppm : PPM) (hs : shapePPM ppm) : shapePPM ppm.Rotate90CW := by
  obtain ⟨hw, hh, _, _⟩ := hs
  have hsh := rotOuter_fold_shape ppm.data ppm.height.toNat ppm.width.toNat ppm.height.toNat
  exact ⟨hh, hw, hsh.1, hsh.2⟩

theorem rotate_get (ppm : PPM) :
    ∀ i j, i < ppm.width.toNat → j < ppm.height.toNat →
      gridGet ppm.Rotate90CW.data zeroPixel j i =
        gridGet ppm.data zeroPixel i (ppm.height.toNat - 1 - j) := by
  intro i j hi hj
  have := rotOuter_fold_get ppm.data ppm.height.toNat ppm.width.toNat ppm.height.toNat
    (le_refl _) i j hi hj
  rw [show ppm.Rotate90CW.data = (List.range ppm.height.toNat).foldl
    (rotOuter ppm.data ppm.height.toNat ppm.width.toNat)
    (List.replicate ppm.width.toNat (List.replicate ppm.height.toNat zeroPixel)) from rfl]
  rw [this, if_pos (by omega)]

theorem grid_ext {α : Type} (dflt : α) (d1 d2 : List (List α)) (hlen : d1.length = d2.length)
    (hrow : ∀ i, i < d1.length → (d1.getD i []).length = (d2.getD i []).length)
    (hcell : ∀ i j, i < d1.length → j < (d1.getD i []).length →
      gridGet d1 dflt j i = gridGet d2 dflt j i) : d1 = d2 := by
  apply List.ext_getElem hlen
  intro i hi1 hi2
  apply List.ext_getElem
  · have h := hrow i hi1
    rw [List.getD_eq_getElem _ _ hi1, List.getD_eq_getElem _ _ hi2] at h
    exact h
  · intro j hj1 hj2
    have h := hcell i j hi1 (by rw [List.getD_eq_getElem _ _ hi1]; exact hj1)
    unfold gridGet at h
    rw [List.getD_eq_getElem _ _ hi1, List.getD_eq_getElem _ _ hi2,
      List.getD_eq_getElem _ _ hj1, List.getD_eq_getElem _ _ hj2] at h
    exact h

theorem ppm_eq_of_fields {a b : PPM} (h1 : a.data = b.data) (h2 : a.width = b.width)
    (h3 : a.height = b.height) (h4 : a.magicNumber = b.magicNumber) (h5 : a.max = b.max) :
    a = b := by
  cases a; cases b; simp_all

/-- C7: four applications of the 90° clockwise rotation restore the
original color image exactly (same width, height, and grid contents), and
one rotation produces a grid of swapped dimensions satisfying
`new[x][height-1-y] = old[y][x]`. -/
theorem rotate_four (ppm : PPM) (hs : shapePPM ppm) :
    ppm.Rotate90CW.Rotate90CW.Rotate90CW.Rotate90CW = ppm ∧
    ppm.Rotate90CW.width = ppm.height ∧ ppm.Rotate90CW.height = ppm.width ∧
    ∀ x y, x < ppm.width.toNat → y < ppm.height.toNat →
      gridGet ppm.Rotate90CW.data zeroPixel (ppm.height.toNat - 1 - y) x =
        gridGet ppm.data zeroPixel x y := by
  obtain ⟨hw0, hh0, hlen0, hrows0⟩ := hs
  have hs1 := rotate_shape _ ⟨hw0, hh0, hlen0, hrows0⟩
  have hs2 := rotate_shape _ hs1
  have hs3 := rotate_shape _ hs2
  have hs4 := rotate_shape _ hs3
  have w1 : ppm.Rotate90CW.width = ppm.height := rfl
  have h1 : ppm.Rotate90CW.height = ppm.width := rfl
  have w2 : ppm.Rotate90CW.Rotate90CW.width = ppm.width := rfl
  have h2 : ppm.Rotate90CW.Rotate90CW.height = ppm.height := rfl
  have w3 : ppm.Rotate90CW.Rotate90CW.Rotate90CW.width = ppm.height := rfl
  have h3 : ppm.Rotate90CW.Rotate90CW.Rotate90CW.height = ppm.width := rfl
  refine ⟨?_, rfl, rfl, ?_⟩
  · have hcell : ∀ r c, r < ppm.height.toNat → c < ppm.width.toNat →
        gridGet ppm.Rotate90CW.Rotate90CW.Rotate90CW.Rotate90CW.data zeroPixel c r =
          gridGet ppm.data zeroPixel c r := by
      intro r c hr hc
      rw [rotate_get ppm.Rotate90CW.Rotate90CW.Rotate90CW r c (by rw [w3]; exact hr)
        (by rw [h3]; exact hc), h3]
      rw [rotate_get ppm.Rotate90CW.Rotate90CW (ppm.width.toNat - 1 - c) r
        (by rw [w2]; omega) (by rw [h2]; exact hr), h2]
      rw [rotate_get ppm.Rotate90CW (ppm.height.toNat - 1 - r) (ppm.width.toNat - 1 - c)
        (by rw [w1]; omega) (by rw [h1]; omega), h1]
      have e1 : ppm.width.toNat - 1 - (ppm.width.toNat - 1 - c) = c := by omega
      rw [e1]
      rw [rotate_get ppm c (ppm.height.toNat - 1 - r) hc (by omega)]
      have e2 : ppm.height.toNat - 1 - (ppm.height.toNat - 1 - r) = r := by omega
      rw [e2]
    apply ppm_eq_of_fields
    · apply grid_ext zeroPixel
      · rw [hs4.2.2.1, hlen0]; rfl
      · intro i hi
        have hi4 : i < ppm.Rotate90CW.Rotate90CW.Rotate90CW.Rotate90CW.data.length := hi
        have hl4 : ppm.Rotate90CW.Rotate90CW.Rotate90CW.Rotate90CW.data.length =
            ppm.height.toNat := hs4.2.2.1
        have hi0 : i < ppm.data.length := by omega
        rw [List.getD_eq_getElem _ _ hi4, List.getD_eq_getElem _ _ hi0]
        rw [hs4.2.2.2 _ (List.getElem_mem hi4), hrows0 _ (List.getElem_mem hi0)]; rfl
      · intro i j hi hj
        have hl4 : ppm.Rotate90CW.Rotate90CW.Rotate90CW.Rotate90CW.data.length =
            ppm.height.toNat := hs4.2.2.1
        have hrl : (ppm.Rotate90CW.Rotate90CW.Rotate90CW.Rotate90CW.data.getD i []).length =
            ppm.width.toNat := by
          rw [List.getD_eq_getElem _ _ hi]
          exact hs4.2.2.2 _ (List.getElem_mem hi)
        exact hcell i j (by omega) (by omega)
    · rfl
    · rfl
    · rfl
    · rfl
  · intro x y hx hy
    rw [rotate_get ppm x (ppm.height.toNat - 1 - y) hx (by omega)]
    have e : ppm.height.toNat - 1 - (ppm.height.toNat - 1 - y) = y := by omega
    rw [e]

/-- C7 witness: the rotation theorem at a concrete 2×1 image. -/
theorem rotate_four_witness :
    (⟨[[⟨1, 2, 3⟩, ⟨4, 5, 6⟩]], 2, 1, magicP3, 255⟩ :
        PPM).Rotate90CW.Rotate90CW.Rotate90CW.Rotate90CW =
      ⟨[[⟨1, 2, 3⟩, ⟨4, 5, 6⟩]], 2, 1, magicP3, 255⟩ :=
  (rotate_four ⟨[[⟨1, 2, 3⟩, ⟨4, 5, 6⟩]], 2, 1, magicP3, 255⟩ (by decide)).1

/-! ## Lemmas on the line rasterizer (C5, C10) -/

theorem lineLoop_succ (w h : Int) (c : Pixel) (p2 : Point) (dX dY sx sy : Int)
    (fuel : Nat) (x y e : Int) (d : List (List Pixel)) :
    lineLoop w h c p2 dX dY sx sy (fuel + 1) x y e d =
      if x = p2.X ∧ y = p2.Y then
        some (if 0 ≤ x ∧ x < w ∧ 0 ≤ y ∧ y < h then gridSet d x.toNat y.toNat c else d)
      else
        lineLoop w h c p2 dX dY sx sy fuel
          (if -dY < 2 * e then x + sx else x)
          (if 2 * e < dX then y + sy else y)
          (if 2 * e < dX then (if -dY < 2 * e then e - dY else e) + dX
            else (if -dY < 2 * e then e - dY else e))
          (if 0 ≤ x ∧ x < w ∧ 0 ≤ y ∧ y < h then gridSet d x.toNat y.toNat c else d) := rfl

theorem rowlen_getD {α : Type} (d : List (List α)) (n : Nat)
    (hd : ∀ r ∈ d, r.length = n) (j : Nat) (hj : j < d.length) :
    (d.getD j []).length = n := by
  rw [List.getD_eq_getElem _ _ hj]
  exact hd _ (List.getElem_mem hj)

/-- C5: on a grid of width and height at least 4, `DrawLine` from (0,0)
to (3,3) sets exactly the four diagonal pixels (0,0),(1,1),(2,2),(3,3) to
the given color and changes no other pixel. -/
theorem drawLine_diagonal (ppm : PPM) (c : Pixel) (hs : shapePPM ppm)
    (hw : 4 ≤ ppm.width) (hh : 4 ≤ ppm.height) :
    ∀ x y, x < ppm.width.toNat → y < ppm.height.toNat →
      gridGet (ppm.DrawLine ⟨0, 0⟩ ⟨3, 3⟩ c).data zeroPixel x y =
        if x = y ∧ x < 4 then c else gridGet ppm.data zeroPixel x y := by
  obtain ⟨hw0, hh0, hlen0, hrows0⟩ := hs
  have h0w : (0 : Int) < ppm.width := by omega
  have h1w : (1 : Int) < ppm.width := by omega
  have h2w : (2 : Int) < ppm.width := by omega
  have h3w : (3 : Int) < ppm.width := by omega
  have h0h : (0 : Int) < ppm.height := by omega
  have h1h : (1 : Int) < ppm.height := by omega
  have h2h : (2 : Int) < ppm.height := by omega
  have h3h : (3 : Int) < ppm.height := by omega
  have hopt : drawLineOpt ppm ⟨0, 0⟩ ⟨3, 3⟩ c =
      some (gridSet (gridSet (gridSet (gridSet ppm.data 0 0 c) 1 1 c) 2 2 c) 3 3 c) := by
    show lineLoop ppm.width ppm.height c ⟨3, 3⟩ 3 3 1 1 7 0 0 0 ppm.data = _
    rw [show (7 : Nat) = 6 + 1 from rfl, lineLoop_succ]
    norm_num [h0w, h0h]
    rw [show (6 : Nat) = 5 + 1 from rfl, lineLoop_succ]
    norm_num [h1w, h1h]
    rw [show (5 : Nat) = 4 + 1 from rfl, lineLoop_succ]
    norm_num [h2w, h2h]
    rw [show (4 : Nat) = 3 + 1 from rfl, lineLoop_succ]
    norm_num [h3w, h3h]
    rfl
  have hdata : (ppm.DrawLine ⟨0, 0⟩ ⟨3, 3⟩ c).data =
      gridSet (gridSet (gridSet (gridSet ppm.data 0 0 c) 1 1 c) 2 2 c) 3 3 c := by
    show (drawLineOpt ppm ⟨0, 0⟩ ⟨3, 3⟩ c).getD ppm.data = _
    rw [hopt]
    rfl
  intro x y hx hy
  rw [hdata]
  have r1 := rows_gridSet (d := ppm.data) 0 0 c hrows0
  have r2 := rows_gridSet (d := gridSet ppm.data 0 0 c) 1 1 c r1
  have r3 := rows_gridSet (d := gridSet (gridSet ppm.data 0 0 c) 1 1 c) 2 2 c r2
  have l1 : (gridSet ppm.data 0 0 c).length = ppm.height.toNat := by
    rw [length_gridSet, hlen0]
  have l2 : (gridSet (gridSet ppm.data 0 0 c) 1 1 c).length = ppm.height.toNat := by
    rw [length_gridSet, l1]
  have l3 : (gridSet (gridSet (gridSet ppm.data 0 0 c) 1 1 c) 2 2 c).length =
      ppm.height.toNat := by
    rw [length_gridSet, l2]
  rw [gridGet_gridSet _ _ _ x y 3 3 (by omega) (by rw [rowlen_getD _ _ r3 3 (by omega)]; omega)]
  rw [gridGet_gridSet _ _ _ x y 2 2 (by omega) (by rw [rowlen_getD _ _ r2 2 (by omega)]; omega)]
  rw [gridGet_gridSet _ _ _ x y 1 1 (by omega) (by rw [rowlen_getD _ _ r1 1 (by omega)]; omega)]
  rw [gridGet_gridSet _ _ _ x y 0 0 (by omega)
    (by rw [rowlen_getD _ _ hrows0 0 (by omega)]; omega)]
  split_ifs <;> first | rfl | omega

/-- C5 witness: the diagonal theorem at a concrete 4×4 grid. -/
theorem drawLine_diagonal_witness :
    gridGet ((⟨List.replicate 4 (List.replicate 4 zeroPixel), 4, 4, magicP3, 255⟩ :
        PPM).DrawLine ⟨0, 0⟩ ⟨3, 3⟩ ⟨9, 9, 9⟩).data zeroPixel 2 2 = ⟨9, 9, 9⟩ ∧
    gridGet ((⟨List.replicate 4 (List.replicate 4 zeroPixel), 4, 4, magicP3, 255⟩ :
        PPM).DrawLine ⟨0, 0⟩ ⟨3, 3⟩ ⟨9, 9, 9⟩).data zeroPixel 2 1 = zeroPixel := by
  constructor
  · rw [drawLine_diagonal ⟨List.replicate 4 (List.replicate 4 zeroPixel), 4, 4, magicP3, 255⟩
      ⟨9, 9, 9⟩ (by decide) (by decide) (by decide) 2 2 (by decide) (by decide)]
    decide
  · rw [drawLine_diagonal ⟨List.replicate 4 (List.replicate 4 zeroPixel), 4, 4, magicP3, 255⟩
      ⟨9, 9, 9⟩ (by decide) (by decide) (by decide) 2 1 (by decide) (by decide)]
    decide

theorem sign_mul_natAbs_self (z : Int) : sign z * (z.natAbs : Int) = z := by
  unfold sign
  split_ifs <;> omega

theorem abs_eq_natAbs_cast (z : Int) : abs z = (z.natAbs : Int) := by
  unfold abs
  split_ifs <;> omega

/-- Termination of the Bresenham loop: with `a = |Δx|`, `b = |Δy|`, ghost
distances `rx`, `ry` to the endpoint along each axis, and the error value
determined by `e = a - b + rx*b - ry*a`, the loop reaches the endpoint
within `rx + ry` further iterations. -/
theorem lineLoop_isSome (w h : Int) (c : Pixel) (p2 : Point) (a b : Nat) (sx sy : Int) :
    ∀ (fuel : Nat) (x y e : Int) (d : List (List Pixel)) (rx ry : Nat),
      p2.X - x = sx * rx → p2.Y - y = sy * ry → rx ≤ a → ry ≤ b →
      e = (a : Int) - b + rx * b - ry * a → rx + ry < fuel →
      (lineLoop w h c p2 (a : Int) (b : Int) sx sy fuel x y e d).isSome := by
  intro fuel
  induction fuel with
  | zero => intro x y e d rx ry _ _ _ _ _ hf; omega
  | succ fuel ih =>
    intro x y e d rx ry hxr hyr hra hrb he hf
    rw [lineLoop_succ]
    by_cases hbreak : x = p2.X ∧ y = p2.Y
    · rw [if_pos hbreak]
      rfl
    · rw [if_neg hbreak]
      have hA : (0 : Int) ≤ (a : Int) := by omega
      have hB : (0 : Int) ≤ (b : Int) := by omega
      have hnz : 0 < rx ∨ 0 < ry := by
        by_contra hcon
        push_neg at hcon
        apply hbreak
        have hrx0 : ((rx : Nat) : Int) = 0 := by omega
        have hry0 : ((ry : Nat) : Int) = 0 := by omega
        rw [hrx0, mul_zero] at hxr
        rw [hry0, mul_zero] at hyr
        exact ⟨by omega, by omega⟩
      have hxstep : -(b : Int) < 2 * e → 0 < rx := by
        intro hcx
        rcases Nat.eq_zero_or_pos rx with h0 | h1
        · exfalso
          have hry1 : 1 ≤ ry := by omega
          have hk : 1 * (a : Int) ≤ (ry : Int) * a :=
            mul_le_mul_of_nonneg_right (by exact_mod_cast hry1) hA
          rw [one_mul] at hk
          rw [he, h0] at hcx
          push_cast at hcx
          linarith [hk, hB, hcx]
        · exact h1
      have hystep : 2 * e < (a : Int) → 0 < ry := by
        intro hcy
        rcases Nat.eq_zero_or_pos ry with h0 | h1
        · exfalso
          have hrx1 : 1 ≤ rx := by omega
          have hk : 1 * (b : Int) ≤ (rx : Int) * b :=
            mul_le_mul_of_nonneg_right (by exact_mod_cast hrx1) hB
          rw [one_mul] at hk
          rw [he, h0] at hcy
          push_cast at hcy
          linarith [hk, hA, hcy]
        · exact h1
      have hstep1 : -(b : Int) < 2 * e ∨ 2 * e < (a : Int) := by
        by_contra hcon
        push_neg at hcon
        obtain ⟨hc1, hc2⟩ := hcon
        have hab : (a : Int) = 0 ∧ (b : Int) = 0 := by omega
        apply hbreak
        have hrx0 : ((rx : Nat) : Int) = 0 := by omega
        have hry0 : ((ry : Nat) : Int) = 0 := by omega
        rw [hrx0, mul_zero] at hxr
        rw [hry0, mul_zero] at hyr
        exact ⟨by omega, by omega⟩
      by_cases hcx : -(b : Int) < 2 * e
      · by_cases hcy : 2 * e < (a : Int)
        · have hrx1 : 0 < rx := hxstep hcx
          have hry1 : 0 < ry := hystep hcy
          rw [if_pos hcx, if_pos hcy, if_pos hcy, if_pos hcx]
          apply ih (x + sx) (y + sy) _ _ (rx - 1) (ry - 1)
          · have hc : ((rx - 1 : Nat) : Int) = (rx : Int) - 1 := by omega
            rw [hc]
            linear_combination hxr
          · have hc : ((ry - 1 : Nat) : Int) = (ry : Int) - 1 := by omega
            rw [hc]
            linear_combination hyr
          · omega
          · omega
          · have hc1 : ((rx - 1 : Nat) : Int) = (rx : Int) - 1 := by omega
            have hc2 : ((ry - 1 : Nat) : Int) = (ry : Int) - 1 := by omega
            rw [hc1, hc2]
            linear_combination he
          · omega
        · have hrx1 : 0 < rx := hxstep hcx
          rw [if_pos hcx, if_neg hcy, if_neg hcy, if_pos hcx]
          apply ih (x + sx) y _ _ (rx - 1) ry
          · have hc : ((rx - 1 : Nat) : Int) = (rx : Int) - 1 := by omega
            rw [hc]
            linear_combination hxr
          · exact hyr
          · omega
          · omega
          · have hc : ((rx - 1 : Nat) : Int) = (rx : Int) - 1 := by omega
            rw [hc]
            linear_combination he
          · omega
      · by_cases hcy : 2 * e < (a : Int)
        · have hry1 : 0 < ry := hystep hcy
          rw [if_neg hcx, if_pos hcy, if_pos hcy, if_neg hcx]
          apply ih x (y + sy) _ _ rx (ry - 1)
          · exact hxr
          · have hc : ((ry - 1 : Nat) : Int) = (ry : Int) - 1 := by omega
            rw [hc]
            linear_combination hyr
          · omega
          · omega
          · have hc : ((ry - 1 : Nat) : Int) = (ry : Int) - 1 := by omega
            rw [hc]
            linear_combination he
          · omega
        · exact absurd hstep1 (by tauto)

theorem drawLineOpt_isSome (ppm : PPM) (p1 p2 : Point) (c : Pixel) :
    (drawLineOpt ppm p1 p2 c).isSome := by
  show (lineLoop ppm.width ppm.height c p2 (abs (p2.X - p1.X)) (abs (p2.Y - p1.Y))
    (sign (p2.X - p1.X)) (sign (p2.Y - p1.Y))
    (abs (p2.X - p1.X) + abs (p2.Y - p1.Y) + 1).toNat p1.X p1.Y
    (abs (p2.X - p1.X) - abs (p2.Y - p1.Y)) ppm.data).isSome
  rw [abs_eq_natAbs_cast, abs_eq_natAbs_cast]
  have hfuel : (((p2.X - p1.X).natAbs : Int) + ((p2.Y - p1.Y).natAbs : Int) + 1).toNat =
      (p2.X - p1.X).natAbs + (p2.Y - p1.Y).natAbs + 1 := by omega
  rw [hfuel]
  apply lineLoop_isSome ppm.width ppm.height c p2 (p2.X - p1.X).natAbs (p2.Y - p1.Y).natAbs
    (sign (p2.X - p1.X)) (sign (p2.Y - p1.Y)) _ p1.X p1.Y _ ppm.data
    (p2.X - p1.X).natAbs (p2.Y - p1.Y).natAbs
  · rw [sign_mul_natAbs_self]
  · rw [sign_mul_natAbs_self]
  · exact le_refl _
  · exact le_refl _
  · ring
  · omega

theorem point_eq (p q : Point) (h1 : p.X = q.X) (h2 : p.Y = q.Y) : p = q := by
  cases p; cases q; simp_all

theorem triLoop_succ (p2 p3 : Point) (c : Pixel) (fuel : Nat) (p1 : Point) (ppm : PPM) :
    triLoop p2 p3 c (fuel + 1) p1 ppm =
      if p1 = p2 then some (ppm.DrawLine p3 p1 c)
      else triLoop p2 p3 c fuel (triStep p1 p2) (ppm.DrawLine p3 p1 c) := rfl

theorem triLoop_isSome (p2 p3 : Point) (c : Pixel) :
    ∀ (fuel : Nat) (p1 : Point) (ppm : PPM),
      (p2.X - p1.X).natAbs + (p2.Y - p1.Y).natAbs < fuel →
      (triLoop p2 p3 c fuel p1 ppm).isSome := by
  intro fuel
  induction fuel with
  | zero => intro p1 ppm h; omega
  | succ fuel ih =>
    intro p1 ppm h
    rw [triLoop_succ]
    by_cases hpe : p1 = p2
    · rw [if_pos hpe]
      rfl
    · rw [if_neg hpe]
      apply ih
      have hne : ¬(p1.X = p2.X ∧ p1.Y = p2.Y) := by
        intro hcon
        exact hpe (point_eq p1 p2 hcon.1 hcon.2)
      unfold triStep
      dsimp only
      split_ifs <;> omega

/-- C10: every rasterization pass terminates.  The stepped line draw
reaches its endpoint for any pair of points — the fuelled loop returns a
grid within `|Δx| + |Δy| + 1` iterations — and the filled-triangle loop,
stepping `p1` one unit per axis toward `p2`, reaches `p2` after finitely
many iterations for any three points. -/
theorem rasterize_terminates (ppm : PPM) (_hs : shapePPM ppm) (c : Pixel) (p1 p2 p3 : Point) :
    (drawLineOpt ppm p1 p2 c).isSome ∧ (ppm.DrawFilledTriangle p1 p2 p3 c).isSome := by
  refine ⟨drawLineOpt_isSome ppm p1 p2 c, ?_⟩
  show (triLoop p2 p3 c ((abs (p2.X - p1.X) + abs (p2.Y - p1.Y) + 1).toNat) p1 ppm).isSome
  apply triLoop_isSome
  rw [abs_eq_natAbs_cast, abs_eq_natAbs_cast]
  omega

/-- C10 witness: termination at a concrete image and points. -/
theorem rasterize_terminates_witness :
    (drawLineOpt ⟨[[zeroPixel]], 1, 1, magicP3, 255⟩ ⟨0, 0⟩ ⟨3, 1⟩ ⟨1, 2, 3⟩).isSome ∧
    ((⟨[[zeroPixel]], 1, 1, magicP3, 255⟩ : PPM).DrawFilledTriangle ⟨0, 0⟩ ⟨3, 1⟩ ⟨1, 3⟩
      ⟨1, 2, 3⟩).isSome :=
  rasterize_terminates ⟨[[zeroPixel]], 1, 1, magicP3, 255⟩ (by decide) ⟨1, 2, 3⟩ ⟨0, 0⟩
    ⟨3, 1⟩ ⟨1, 3⟩

/-! ## Lemmas on decimal rendering and scanning (C1, C3) -/

theorem natDigitsAux_spec : ∀ (f n : Nat), n < f →
    natDigitsAux f n ≠ [] ∧ (∀ b ∈ natDigitsAux f n, 48 ≤ b ∧ b ≤ 57) ∧
      digitsVal (natDigitsAux f n) = n := by
  intro f
  induction f with
  | zero => intro n h; omega
  | succ f ih =>
    intro n h
    by_cases h10 : n < 10
    · rw [natDigitsAux, if_pos h10]
      refine ⟨by simp, ?_, ?_⟩
      · intro b hb
        rw [List.mem_singleton] at hb
        subst hb
        omega
      · simp [digitsVal]
    · rw [natDigitsAux, if_neg h10]
      have hlt : n / 10 < f := by omega
      obtain ⟨ih1, ih2, ih3⟩ := ih (n / 10) hlt
      refine ⟨by simp, ?_, ?_⟩
      · intro b hb
        rcases List.mem_append.mp hb with hb | hb
        · exact ih2 b hb
        · simp at hb
          omega
      · show digitsVal (natDigitsAux f (n / 10) ++ [n % 10 + 48]) = n
        unfold digitsVal
        rw [List.foldl_append]
        have hfold : List.foldl (fun a d => a * 10 + (d - 48)) 0 (natDigitsAux f (n / 10)) =
            n / 10 := ih3
        rw [hfold]
        simp only [List.foldl_cons, List.foldl_nil]
        omega

theorem natDigits_ne_nil (n : Nat) : natDigits n ≠ [] :=
  (natDigitsAux_spec (n + 1) n (by omega)).1

theorem natDigits_digits (n : Nat) : ∀ b ∈ natDigits n, 48 ≤ b ∧ b ≤ 57 :=
  (natDigitsAux_spec (n + 1) n (by omega)).2.1

theorem digitsVal_natDigits (n : Nat) : digitsVal (natDigits n) = n :=
  (natDigitsAux_spec (n + 1) n (by omega)).2.2

theorem takeWhile_append_all {p : Nat → Bool} :
    ∀ (l1 l2 : List Nat), (∀ b ∈ l1, p b = true) →
      (l1 ++ l2).takeWhile p = l1 ++ l2.takeWhile p := by
  intro l1
  induction l1 with
  | nil => intro l2 _; simp
  | cons a l ih =>
    intro l2 hp
    rw [List.cons_append, List.takeWhile_cons_of_pos (hp a (by simp)), ih l2
      (fun b hb => hp b (by simp [hb])), List.cons_append]

theorem dropWhile_append_all {p : Nat → Bool} :
    ∀ (l1 l2 : List Nat), (∀ b ∈ l1, p b = true) →
      (l1 ++ l2).dropWhile p = l2.dropWhile p := by
  intro l1
  induction l1 with
  | nil => intro l2 _; simp
  | cons a l ih =>
    intro l2 hp
    rw [List.cons_append, List.dropWhile_cons_of_pos (hp a (by simp))]
    exact ih l2 (fun b hb => hp b (by simp [hb]))

theorem natDigits_all_digit (n : Nat) : ∀ b ∈ natDigits n, isDigit b = true := by
  intro b hb
  have h := natDigits_digits n b hb
  simp only [isDigit, Bool.and_eq_true, decide_eq_true_eq]
  omega

theorem natDigits_not_ws (n : Nat) : ∀ b ∈ natDigits n, isWS b = false := by
  intro b hb
  have h := natDigits_digits n b hb
  simp only [isWS, Bool.or_eq_false_iff, decide_eq_false_iff_not]
  omega

theorem scanDigits_natDigits (neg : Bool) (n : Nat) (rest : List Nat)
    (hrest : ∀ b, rest.head? = some b → isDigit b = false) :
    scanDigits neg (natDigits n ++ rest) =
      some ((if neg then -(n : Int) else (n : Int)), rest) := by
  unfold scanDigits
  have ht : (natDigits n ++ rest).takeWhile (fun b => isDigit b) = natDigits n := by
    rw [takeWhile_append_all _ _ (natDigits_all_digit n)]
    cases rest with
    | nil => simp
    | cons r rs =>
      rw [List.takeWhile_cons_of_neg (by simp [hrest r rfl])]
      simp
  have hd : (natDigits n ++ rest).dropWhile (fun b => isDigit b) = rest := by
    rw [dropWhile_append_all _ _ (natDigits_all_digit n)]
    cases rest with
    | nil => simp
    | cons r rs => rw [List.dropWhile_cons_of_neg (by simp [hrest r rfl])]
  rw [ht, hd, if_neg (by simp [List.isEmpty_iff, natDigits_ne_nil]), digitsVal_natDigits]

theorem scanIntCore_natDigits (n : Nat) (rest : List Nat)
    (hrest : ∀ b, rest.head? = some b → isDigit b = false) :
    scanIntCore (natDigits n ++ rest) = some ((n : Int), rest) := by
  obtain ⟨d, ds, hds⟩ : ∃ d ds, natDigits n = d :: ds := by
    cases h : natDigits n with
    | nil => exact absurd h (natDigits_ne_nil n)
    | cons d ds => exact ⟨d, ds, rfl⟩
  have hd := natDigits_digits n d (by rw [hds]; simp)
  have h45 : ¬(d = 45) := by omega
  have h43 : ¬(d = 43) := by omega
  rw [hds, List.cons_append, scanIntCore, if_neg h45, if_neg h43,
    ← List.cons_append, ← hds]
  have hsd := scanDigits_natDigits false n rest hrest
  simp only [if_neg Bool.false_ne_true] at hsd
  rw [hsd]

theorem dropWhile_isWS_natDigits (n : Nat) (rest : List Nat) :
    (natDigits n ++ rest).dropWhile (fun b => isWS b) = natDigits n ++ rest := by
  obtain ⟨d, ds, hds⟩ : ∃ d ds, natDigits n = d :: ds := by
    cases h : natDigits n with
    | nil => exact absurd h (natDigits_ne_nil n)
    | cons d ds => exact ⟨d, ds, rfl⟩
  have hd : isWS d = false := natDigits_not_ws n d (by rw [hds]; simp)
  rw [hds, List.cons_append, List.dropWhile_cons_of_neg (by simp [hd])]

theorem scanInt_natDigits (n : Nat) (rest : List Nat)
    (hrest : ∀ b, rest.head? = some b → isDigit b = false) :
    scanInt (natDigits n ++ rest) = some ((n : Int), rest) := by
  unfold scanInt
  rw [dropWhile_isWS_natDigits, scanIntCore_natDigits n rest hrest]

theorem sscanfTwoInts_render (w h : Nat) :
    sscanfTwoInts (natDigits w ++ [32] ++ natDigits h) = some ((w : Int), (h : Int)) := by
  unfold sscanfTwoInts
  rw [List.append_assoc, show ([32] ++ natDigits h) = 32 :: natDigits h from rfl]
  rw [scanInt_natDigits w (32 :: natDigits h) (by intro b hb; simp at hb; rw [← hb]; rfl)]
  show (match scanInt (32 :: natDigits h) with
    | none => none
    | some (hv, _) => some ((w : Int), hv)) = _
  have h2 : scanInt (32 :: natDigits h) = some ((h : Int), []) := by
    unfold scanInt
    rw [List.dropWhile_cons_of_pos (by rfl)]
    have := dropWhile_isWS_natDigits h []
    rw [List.append_nil] at this
    rw [this]
    have := scanIntCore_natDigits h [] (by intro b hb; simp at hb)
    rw [List.append_nil] at this
    rw [this]
  rw [h2]

/-! ## Lemmas on lines, trimming and fields (C1, C3) -/

theorem readLine_append (l rest : List Nat) (h10 : ∀ b ∈ l, b ≠ 10) :
    readLine (l ++ 10 :: rest) = some (l ++ [10], rest) := by
  induction l with
  | nil => simp [readLine]
  | cons b t ih =>
    rw [List.cons_append]
    simp only [readLine]
    rw [if_neg (h10 b (by simp))]
    rw [ih (fun x hx => h10 x (by simp [hx]))]
    rfl

theorem trimSpace_append_nl (d : Nat) (t : List Nat)
    (hhead : isWS d = false) (hlast : ∀ b, (d :: t).getLast? = some b → isWS b = false) :
    trimSpace ((d :: t) ++ [10]) = d :: t := by
  unfold trimSpace
  rw [List.cons_append, List.dropWhile_cons_of_neg (by simp [hhead])]
  have hrv : (d :: (t ++ [10])).reverse = 10 :: (d :: t).reverse := by simp
  rw [hrv, List.dropWhile_cons_of_pos (by rfl)]
  obtain ⟨e, he⟩ : ∃ e, (d :: t).getLast? = some e := by
    have h1 : ((d :: t).getLast?).isSome = true := List.getLast?_isSome.mpr (by simp)
    exact Option.isSome_iff_exists.mp h1
  have hrev : (d :: t).reverse.head? = some e := by rw [List.head?_reverse]; exact he
  obtain ⟨t2, ht2⟩ : ∃ t2, (d :: t).reverse = e :: t2 := by
    cases hr : (d :: t).reverse with
    | nil => rw [hr] at hrev; simp at hrev
    | cons a l2 =>
      rw [hr] at hrev
      simp at hrev
      exact ⟨l2, by rw [hrev]⟩
  rw [ht2, List.dropWhile_cons_of_neg (by simp [hlast e he]), ← ht2, List.reverse_reverse]

theorem fieldsGo_token (rest : List Nat) :
    ∀ (tok acc : List Nat), (∀ b ∈ tok, isWS b = false) → (tok = [] → acc ≠ []) →
      fieldsGo (tok ++ 32 :: rest) acc = (acc.reverse ++ tok) :: fieldsGo rest [] := by
  intro tok
  induction tok with
  | nil =>
    intro acc _ hacc
    have hne : acc ≠ [] := hacc rfl
    rw [List.nil_append]
    simp only [fieldsGo, show isWS 32 = true from rfl, if_true]
    rw [if_neg (by simp [List.isEmpty_iff, hne])]
    simp
  | cons b t ih =>
    intro acc hws _
    rw [List.cons_append]
    simp only [fieldsGo]
    rw [if_neg (by simp [hws b (by simp)])]
    rw [ih (b :: acc) (fun x hx => hws x (by simp [hx])) (by simp)]
    simp

theorem fields_render :
    ∀ (toks : List (List Nat)), (∀ t ∈ toks, t ≠ [] ∧ ∀ b ∈ t, isWS b = false) →
      fields ((toks.flatMap (fun t => t ++ [32])) ++ [10]) = toks := by
  intro toks
  induction toks with
  | nil => intro _; rfl
  | cons t ts ih =>
    intro h
    unfold fields
    rw [List.flatMap_cons]
    rw [show ((t ++ [32]) ++ ts.flatMap (fun t => t ++ [32])) ++ [10] =
      t ++ 32 :: (ts.flatMap (fun t => t ++ [32]) ++ [10]) from by simp]
    rw [fieldsGo_token _ t [] (h t (by simp)).2
      (fun h0 => absurd h0 (h t (by simp)).1)]
    have ihh := ih (fun x hx => h x (by simp [hx]))
    unfold fields at ihh
    rw [ihh]
    simp

theorem renderRowP1_eq (row : List Bool) :
    renderRowP1 row =
      ((row.map (fun b => if b then [49] else [48])).flatMap (fun t => t ++ [32])) ++ [10] := by
  unfold renderRowP1
  rw [List.flatMap_map]
  congr 1
  induction row with
  | nil => rfl
  | cons b t ih =>
    rw [List.flatMap_cons, List.flatMap_cons, ih]
    cases b <;> rfl

theorem fields_renderRowP1 (row : List Bool) :
    fields (renderRowP1 row) = row.map (fun b => if b then [49] else [48]) := by
  rw [renderRowP1_eq, fields_render]
  intro t ht
  rw [List.mem_map] at ht
  obtain ⟨b, _, rfl⟩ := ht
  cases b <;> exact ⟨by simp, by intro x hx; simp at hx; rw [hx]; rfl⟩

theorem fillRowP1_correct (w : Nat) :
    ∀ (bits : List Bool) (x : Nat) (base : List Bool),
      x + bits.length ≤ w → base.length = w →
      ∃ res, fillRowP1 (w : Int) (bits.map fun b => if b then [49] else [48]) x base =
          .ok res ∧ res.length = w ∧
        ∀ j, j < w → res.getD j false =
          if x ≤ j ∧ j < x + bits.length then bits.getD (j - x) false
          else base.getD j false := by
  intro bits
  induction bits with
  | nil =>
    intro x base _ hbase
    refine ⟨base, rfl, hbase, ?_⟩
    intro j hj
    rw [if_neg (by simp only [List.length_nil, Nat.add_zero]; omega)]
  | cons b bs ih =>
    intro x base hlen hbase
    simp only [List.map_cons, fillRowP1]
    rw [if_neg (by simp at hlen ⊢; omega)]
    have hbv : ((if b then [49] else [48] : List Nat) == [49]) = b := by
      cases b <;> rfl
    rw [hbv]
    obtain ⟨res, hres, hlen2, hget⟩ := ih (x + 1) (base.set x b)
      (by simp at hlen ⊢; omega) (by rw [List.length_set]; exact hbase)
    refine ⟨res, hres, hlen2, ?_⟩
    intro j hj
    rw [hget j hj]
    by_cases hc1 : x + 1 ≤ j ∧ j < x + 1 + bs.length
    · rw [if_pos hc1, if_pos (by simp; omega)]
      have : j - x = (j - (x + 1)) + 1 := by omega
      rw [this]
      rfl
    · rw [if_neg hc1]
      by_cases hc2 : x ≤ j ∧ j < x + (b :: bs).length
      · rw [if_pos hc2]
        have hjx : j = x := by simp at hc2; omega
        subst hjx
        rw [getD_set]
        rw [if_pos ⟨rfl, by omega⟩]
        simp
      · rw [if_neg hc2]
        rw [getD_set, if_neg (by simp at hc2; omega)]

theorem renderRowP1_no_nl (row : List Bool) :
    ∀ b ∈ row.flatMap (fun px => if px then [49, 32] else [48, 32]), b ≠ 10 := by
  intro b hb
  rw [List.mem_flatMap] at hb
  obtain ⟨px, _, hb⟩ := hb
  cases px <;> simp at hb <;> omega

theorem list_eq_of_getD {α : Type} (d : α) (l1 l2 : List α) (hlen : l1.length = l2.length)
    (h : ∀ j, j < l1.length → l1.getD j d = l2.getD j d) : l1 = l2 := by
  apply List.ext_getElem hlen
  intro n h1 h2
  have := h n h1
  rw [List.getD_eq_getElem _ _ h1, List.getD_eq_getElem _ _ h2] at this
  exact this

theorem readRowsP1_cons_eq (width : Int) (w y : Nat) (stream line rest : List Nat)
    (h : readLine stream = some (line, rest)) :
    readRowsP1 width w (y + 1) stream =
      (match fillRowP1 width (fields line) 0 (List.replicate w false) with
      | .error e => .error e
      | .ok row => (readRowsP1 width w y rest).map (fun rows => row :: rows)) := by
  simp only [readRowsP1]
  rw [h]

theorem readRowsP1_save (w : Nat) :
    ∀ (rows : List (List Bool)), (∀ r ∈ rows, r.length = w) →
      readRowsP1 (w : Int) w rows.length (rows.flatMap renderRowP1) = .ok rows := by
  intro rows
  induction rows with
  | nil => intro _; rfl
  | cons r rs ih =>
    intro h
    rw [List.flatMap_cons, List.length_cons]
    have hshape : renderRowP1 r ++ rs.flatMap renderRowP1 =
        (r.flatMap (fun px => if px then [49, 32] else [48, 32])) ++
          10 :: rs.flatMap renderRowP1 := by
      unfold renderRowP1
      simp
    rw [hshape]
    rw [readRowsP1_cons_eq (w : Int) w rs.length _ _ _
      (readLine_append _ _ (renderRowP1_no_nl r))]
    have hfr : fields ((r.flatMap (fun px => if px then [49, 32] else [48, 32])) ++ [10]) =
        r.map (fun b => if b then [49] else [48]) := by
      have h2 := fields_renderRowP1 r
      unfold renderRowP1 at h2
      exact h2
    rw [hfr]
    obtain ⟨res, hres, hlen2, hget⟩ := fillRowP1_correct w r 0 (List.replicate w false)
      (by rw [h r (by simp)]; omega) (by simp)
    rw [hres]
    have hrw : r.length = w := h r (by simp)
    have hresr : res = r := by
      apply list_eq_of_getD false _ _ (by rw [hlen2, hrw])
      intro j hj
      rw [hget j (by omega)]
      rw [if_pos (by constructor <;> omega)]
      simp
    rw [hresr, ih (fun x hx => h x (by simp [hx]))]
    rfl

theorem shiftRight_and_one (m k : Nat) : ((m >>> k) &&& 1 != 0) = m.testBit k := by
  simp [Nat.testBit, Nat.land_comm]

theorem unpackRowP4_packRowP4 (row : List Bool) (w : Nat) (hl : row.length = w) :
    unpackRowP4 (packRowP4 row w) w = row := by
  unfold unpackRowP4
  apply list_eq_of_getD false
  · simp [hl]
  · intro j hj
    simp only [List.length_map, List.length_range] at hj
    have hmap : ((List.range w).map (fun x =>
        ((packRowP4 row w).getD (x / 8) 0) >>> (7 - x % 8) &&& 1 != 0)).getD j false =
        (((packRowP4 row w).getD (j / 8) 0) >>> (7 - j % 8) &&& 1 != 0) := by
      rw [List.getD_eq_getElem _ _ (by simp [hj]), List.getElem_map, List.getElem_range]
    rw [hmap, shiftRight_and_one]
    rw [packRowP4, packFold_testBit row w w (le_refl w) j (by omega)]
    simp [hj]

theorem readRowsP4_save (w : Nat) :
    ∀ (rows : List (List Bool)), (∀ r ∈ rows, r.length = w) →
      readRowsP4 w rows.length (rows.flatMap (fun r => packRowP4 r w)) = .ok (rows, []) := by
  intro rows
  induction rows with
  | nil => intro _; rfl
  | cons r rs ih =>
    intro h
    rw [List.flatMap_cons, List.length_cons]
    simp only [readRowsP4]
    have hk : (packRowP4 r w).length = (w + 7) / 8 := packFold_len r w w
    have hlen : ¬((packRowP4 r w ++ rs.flatMap (fun r => packRowP4 r w)).length < (w + 7) / 8) := by
      rw [List.length_append, hk]
      omega
    rw [if_neg hlen]
    rw [← hk, List.take_left, List.drop_left]
    rw [ih (fun x hx => h x (by simp [hx]))]
    rw [unpackRowP4_packRowP4 r w (h r (by simp))]

/-! ## The two-value round trip (C1, C3) -/

theorem intDigits_nonneg (i : Int) (h : 0 ≤ i) : intDigits i = natDigits i.toNat := by
  unfold intDigits
  rw [if_neg (by omega)]

theorem natDigits_cons (n : Nat) : ∃ d ds, natDigits n = d :: ds := by
  cases h : natDigits n with
  | nil => exact absurd h (natDigits_ne_nil n)
  | cons d ds => exact ⟨d, ds, rfl⟩

theorem dims_no_nl (a b : Nat) : ∀ x ∈ natDigits a ++ [32] ++ natDigits b, x ≠ 10 := by
  intro x hx
  rcases List.mem_append.mp hx with hx | hx
  · rcases List.mem_append.mp hx with hx | hx
    · have := natDigits_digits a x hx
      omega
    · simp at hx
      omega
  · have := natDigits_digits b x hx
    omega

theorem trimSpace_dims (a b : Nat) :
    trimSpace ((natDigits a ++ [32] ++ natDigits b) ++ [10]) =
      natDigits a ++ [32] ++ natDigits b := by
  obtain ⟨d, ds, hds⟩ := natDigits_cons a
  have hshape : natDigits a ++ [32] ++ natDigits b = d :: (ds ++ [32] ++ natDigits b) := by
    rw [hds]
    simp
  rw [hshape]
  apply trimSpace_append_nl
  · exact natDigits_not_ws a d (by rw [hds]; simp)
  · intro x hx
    rw [← hshape] at hx
    rw [List.getLast?_append] at hx
    obtain ⟨e, he⟩ : ∃ e, (natDigits b).getLast? = some e := by
      have h1 : ((natDigits b).getLast?).isSome = true :=
        List.getLast?_isSome.mpr (natDigits_ne_nil b)
      exact Option.isSome_iff_exists.mp h1
    rw [he] at hx
    simp at hx
    subst hx
    exact natDigits_not_ws b e (List.mem_of_mem_getLast? he)

theorem readPBM_parsed_P1 (bs l1 r1 l2 r2 : List Nat) (w h : Int)
    (h1 : readLine bs = some (l1, r1))
    (h2 : readLine r1 = some (l2, r2))
    (h3 : sscanfTwoInts (trimSpace l2) = some (w, h))
    (hmagic : trimSpace l1 = magicP1)
    (hw : 0 ≤ w) (hh : 0 ≤ h) :
    readPBM bs =
      some ((readRowsP1 w w.toNat h.toNat r2).map (fun rows =>
        PBM.mk rows w h magicP1)) := by
  unfold readPBM
  split
  · rename_i heq
    rw [h1] at heq
    simp at heq
  · rename_i l1x r1x heq
    rw [h1] at heq
    injection heq with heq2
    injection heq2 with ha hb
    subst ha
    subst hb
    rw [hmagic, if_neg (by simp [magicP1])]
    split
    · rename_i heq
      rw [h2] at heq
      simp at heq
    · rename_i l2x r2x heq
      rw [h2] at heq
      injection heq with heq2
      injection heq2 with ha hb
      subst ha
      subst hb
      split
      · rename_i heq
        rw [h3] at heq
        simp at heq
      · rename_i wx hx heq
        rw [h3] at heq
        injection heq with heq2
        injection heq2 with ha hb
        subst ha
        subst hb
        rw [if_neg (by omega), if_neg (by omega), if_pos rfl]

theorem readPBM_parsed_P4 (bs l1 r1 l2 r2 : List Nat) (w h : Int)
    (h1 : readLine bs = some (l1, r1))
    (h2 : readLine r1 = some (l2, r2))
    (h3 : sscanfTwoInts (trimSpace l2) = some (w, h))
    (hmagic : trimSpace l1 = magicP4)
    (hw : 0 ≤ w) (hh : 0 ≤ h) :
    readPBM bs =
      some ((readRowsP4 w.toNat h.toNat r2).map (fun pr =>
        PBM.mk pr.1 w h magicP4)) := by
  unfold readPBM
  split
  · rename_i heq
    rw [h1] at heq
    simp at heq
  · rename_i l1x r1x heq
    rw [h1] at heq
    injection heq with heq2
    injection heq2 with ha hb
    subst ha
    subst hb
    rw [hmagic, if_neg (by simp [magicP4])]
    split
    · rename_i heq
      rw [h2] at heq
      simp at heq
    · rename_i l2x r2x heq
      rw [h2] at heq
      injection heq with heq2
      injection heq2 with ha hb
      subst ha
      subst hb
      split
      · rename_i heq
        rw [h3] at heq
        simp at heq
      · rename_i wx hx heq
        rw [h3] at heq
        injection heq with heq2
        injection heq2 with ha hb
        subst ha
        subst hb
        rw [if_neg (by omega), if_neg (by omega), if_neg (by simp [magicP4, magicP1])]

theorem readPBM_savePBM (pbm : PBM) (hwf : wfPBM pbm)
    (hm : pbm.magicNumber = magicP1 ∨ pbm.magicNumber = magicP4) :
    readPBM (savePBM pbm) = some (.ok pbm) := by
  obtain ⟨data, wI, hI, magic⟩ := pbm
  obtain ⟨hw0, hh0, hlen, hrows⟩ := hwf
  simp only at hw0 hh0 hlen hrows hm
  rcases hm with hm | hm
  · subst hm
    have hb : savePBM ⟨data, wI, hI, magicP1⟩ =
        [80, 49] ++ 10 :: ((natDigits wI.toNat ++ [32] ++ natDigits hI.toNat) ++
          10 :: data.flatMap renderRowP1) := by
      unfold savePBM
      dsimp only
      rw [if_pos rfl]
      rw [intDigits_nonneg _ hw0, intDigits_nonneg _ hh0]
      simp [magicP1]
    rw [hb]
    rw [readPBM_parsed_P1 _ ([80, 49] ++ [10]) _
      ((natDigits wI.toNat ++ [32] ++ natDigits hI.toNat) ++ [10]) (data.flatMap renderRowP1)
      (wI.toNat : Int) (hI.toNat : Int)
      (readLine_append [80, 49] _ (by decide))
      (readLine_append _ _ (dims_no_nl wI.toNat hI.toNat))
      (by rw [trimSpace_dims]; exact sscanfTwoInts_render wI.toNat hI.toNat)
      (by decide) (by omega) (by omega)]
    rw [Int.toNat_natCast, Int.toNat_natCast]
    have hsave : readRowsP1 ((wI.toNat : Nat) : Int) wI.toNat hI.toNat
        (data.flatMap renderRowP1) = .ok data := by
      rw [show hI.toNat = data.length from hlen.symm]
      exact readRowsP1_save wI.toNat data hrows
    rw [hsave]
    simp only [Except.map]
    rw [Int.toNat_of_nonneg hw0, Int.toNat_of_nonneg hh0]
  · subst hm
    have hb : savePBM ⟨data, wI, hI, magicP4⟩ =
        [80, 52] ++ 10 :: ((natDigits wI.toNat ++ [32] ++ natDigits hI.toNat) ++
          10 :: data.flatMap (fun row => packRowP4 row wI.toNat)) := by
      unfold savePBM
      dsimp only
      rw [if_neg (by decide), if_pos rfl]
      rw [intDigits_nonneg _ hw0, intDigits_nonneg _ hh0]
      simp [magicP4]
    rw [hb]
    rw [readPBM_parsed_P4 _ ([80, 52] ++ [10]) _
      ((natDigits wI.toNat ++ [32] ++ natDigits hI.toNat) ++ [10])
      (data.flatMap (fun row => packRowP4 row wI.toNat))
      (wI.toNat : Int) (hI.toNat : Int)
      (readLine_append [80, 52] _ (by decide))
      (readLine_append _ _ (dims_no_nl wI.toNat hI.toNat))
      (by rw [trimSpace_dims]; exact sscanfTwoInts_render wI.toNat hI.toNat)
      (by decide) (by omega) (by omega)]
    rw [Int.toNat_natCast, Int.toNat_natCast]
    have hsave : readRowsP4 wI.toNat hI.toNat
        (data.flatMap (fun row => packRowP4 row wI.toNat)) = .ok (data, []) := by
      rw [show hI.toNat = data.length from hlen.symm]
      exact readRowsP4_save wI.toNat data hrows
    rw [hsave]
    simp only [Except.map]
    rw [Int.toNat_of_nonneg hw0, Int.toNat_of_nonneg hh0]

/-! ## Lemmas on splitLines, loose scanning and the color payloads (C1, C3) -/

theorem readPPMLoop_magic_step (all text : List Nat) (rest : List (List Nat)) (ppm : PPM) (line : Nat)
    (hh : ¬(text.head? = some 35)) (hm : ppm.magicNumber = []) :
    readPPMLoop all (text :: rest) ppm line =
      readPPMLoop all rest { ppm with magicNumber := trimSpace text } line := by
  simp only [readPPMLoop]
  rw [if_neg hh, if_pos hm]

theorem readPPMLoop_dims_step (all text : List Nat) (rest : List (List Nat)) (ppm : PPM) (line : Nat)
    (w2 h2 : Int)
    (hh : ¬(text.head? = some 35)) (hm : ¬(ppm.magicNumber = []))
    (hw : ppm.width = 0)
    (hscan : scanTwoIntsLoose text ppm.width ppm.height = (w2, h2))
    (hh2 : ¬(h2 < 0)) (hwh : ¬(0 < h2 ∧ w2 < 0)) :
    readPPMLoop all (text :: rest) ppm line =
      readPPMLoop all rest
        { ppm with
          width := w2
          height := h2
          data := List.replicate h2.toNat (List.replicate w2.toNat zeroPixel) } line := by
  simp only [readPPMLoop]
  rw [if_neg hh, if_neg hm, if_pos hw, hscan]
  simp only []
  rw [if_neg hh2, if_neg hwh]

theorem readPPMLoop_max_step (all text : List Nat) (rest : List (List Nat)) (ppm : PPM) (line : Nat)
    (hh : ¬(text.head? = some 35)) (hm : ¬(ppm.magicNumber = []))
    (hw : ¬(ppm.width = 0)) (hmax : ppm.max = 0) :
    readPPMLoop all (text :: rest) ppm line =
      readPPMLoop all rest { ppm with max := scanMaxLoose text ppm.max } line := by
  simp only [readPPMLoop]
  rw [if_neg hh, if_neg hm, if_neg hw, if_pos hmax]

theorem readPPMLoop_p3_step (all text : List Nat) (rest : List (List Nat)) (ppm : PPM) (line : Nat)
    (d2 : List (List Pixel))
    (hh : ¬(text.head? = some 35)) (hm3 : ppm.magicNumber = magicP3)
    (hw : ¬(ppm.width = 0)) (hmax : ¬(ppm.max = 0))
    (hstore : storeRowP3Aux (fields text) line ppm.width.toNat 0 ppm.data = some d2) :
    readPPMLoop all (text :: rest) ppm line =
      readPPMLoop all rest { ppm with data := d2 } (line + 1) := by
  simp only [readPPMLoop]
  rw [if_neg hh, if_neg (by rw [hm3]; simp [magicP3]), if_neg hw, if_neg hmax,
    if_pos hm3, hstore]

theorem readPPMLoop_p6_step (all text : List Nat) (rest : List (List Nat)) (ppm : PPM) (line : Nat)
    (d2 : List (List Pixel))
    (hh : ¬(text.head? = some 35)) (hm6 : ppm.magicNumber = magicP6)
    (hw : ¬(ppm.width = 0)) (hmax : ¬(ppm.max = 0))
    (hlen : ¬(all.length < (ppm.width * ppm.height * 3).toNat))
    (hfill : fillP6All (all.drop (all.length - (ppm.width * ppm.height * 3).toNat))
        ppm.width.toNat ppm.height.toNat 0 ppm.data = some d2) :
    readPPMLoop all (text :: rest) ppm line = some { ppm with data := d2 } := by
  simp only [readPPMLoop]
  rw [if_neg hh, if_neg (by rw [hm6]; simp [magicP6]), if_neg hw, if_neg hmax,
    if_neg (by rw [hm6]; simp [magicP6, magicP3]), if_pos hm6]
  rw [if_neg hlen, hfill]

theorem stripCR_no13 (l : List Nat) (h : ∀ b ∈ l, b ≠ 13) : stripCR l = l := by
  unfold stripCR
  split
  · rename_i heq
    exact absurd rfl (h 13 (List.mem_of_mem_getLast? heq))
  · rfl

theorem splitLinesGo_nl (bs acc : List Nat) :
    splitLinesGo (10 :: bs) acc = stripCR acc.reverse :: splitLinesGo bs [] := rfl

theorem splitLinesGo_other (b : Nat) (bs acc : List Nat) (h : b ≠ 10)
    (hb : ¬(maxScanTokenSize ≤ acc.length + 1)) :
    splitLinesGo (b :: bs) acc = splitLinesGo bs (b :: acc) := by
  simp only [splitLinesGo, h]
  rw [if_neg hb]

theorem splitLinesGo_append (rest : List Nat) :
    ∀ (l acc : List Nat), (∀ b ∈ l, b ≠ 10) →
      acc.length + l.length < maxScanTokenSize →
      splitLinesGo (l ++ 10 :: rest) acc = stripCR (acc.reverse ++ l) :: splitLinesGo rest [] := by
  intro l
  induction l with
  | nil =>
    intro acc _ _
    rw [List.nil_append, splitLinesGo_nl, List.append_nil]
  | cons b t ih =>
    intro acc h hlen
    rw [List.length_cons] at hlen
    rw [List.cons_append, splitLinesGo_other b _ _ (h b (by simp)) (by omega),
      ih (b :: acc) (fun x hx => h x (by simp [hx])) (by rw [List.length_cons]; omega)]
    simp

theorem splitLines_append (l rest : List Nat) (h10 : ∀ b ∈ l, b ≠ 10)
    (h13 : ∀ b ∈ l, b ≠ 13) (hbound : l.length < maxScanTokenSize) :
    splitLines (l ++ 10 :: rest) = l :: splitLines rest := by
  unfold splitLines
  rw [splitLinesGo_append rest l [] h10 (by rw [List.length_nil]; omega)]
  rw [List.reverse_nil, List.nil_append, stripCR_no13 l h13]

theorem splitLines_joined :
    ∀ (ls : List (List Nat)), (∀ l ∈ ls, ∀ b ∈ l, b ≠ 10 ∧ b ≠ 13) →
      (∀ l ∈ ls, l.length < maxScanTokenSize) →
      splitLines (ls.flatMap (fun l => l ++ [10])) = ls := by
  intro ls
  induction ls with
  | nil => intro _ _; rfl
  | cons l t ih =>
    intro h hb
    rw [List.flatMap_cons]
    rw [show (l ++ [10]) ++ t.flatMap (fun l => l ++ [10]) =
      l ++ 10 :: t.flatMap (fun l => l ++ [10]) from by simp]
    rw [splitLines_append l _ (fun b hb => (h l (by simp) b hb).1)
      (fun b hb => (h l (by simp) b hb).2) (hb l (by simp))]
    rw [ih (fun x hx => h x (by simp [hx])) (fun x hx => hb x (by simp [hx]))]

theorem scanTwoIntsLoose_render (w h : Nat) (a b : Int) :
    scanTwoIntsLoose (natDigits w ++ [32] ++ natDigits h) a b = ((w : Int), (h : Int)) := by
  unfold scanTwoIntsLoose
  rw [List.append_assoc, show ([32] ++ natDigits h) = 32 :: natDigits h from rfl]
  rw [scanInt_natDigits w (32 :: natDigits h) (by intro c hc; simp at hc; rw [← hc]; rfl)]
  show (match scanInt (32 :: natDigits h) with
    | none => ((w : Int), b)
    | some (h2, _) => ((w : Int), h2)) = _
  have h2eq : scanInt (32 :: natDigits h) = some ((h : Int), []) := by
    unfold scanInt
    rw [List.dropWhile_cons_of_pos (by rfl)]
    have hd := dropWhile_isWS_natDigits h []
    rw [List.append_nil] at hd
    rw [hd]
    have hc := scanIntCore_natDigits h [] (by intro c hc; simp at hc)
    rw [List.append_nil] at hc
    rw [hc]
  rw [h2eq]

theorem scanMaxLoose_render (m : Nat) (hm : m ≤ 255) (old : Nat) :
    scanMaxLoose (natDigits m) old = m := by
  unfold scanMaxLoose
  have h1 : scanInt (natDigits m ++ []) = some ((m : Int), []) :=
    scanInt_natDigits m [] (by intro c hc; simp at hc)
  rw [List.append_nil] at h1
  rw [h1]
  show (if 0 ≤ (m : Int) ∧ (m : Int) ≤ 255 then ((m : Int)).toNat else old) = m
  rw [if_pos (by constructor <;> omega)]
  exact Int.toNat_natCast m

theorem parseUint8Tok_natDigits (v : Nat) (hv : v ≤ 255) :
    parseUint8Tok (natDigits v) = v := by
  unfold parseUint8Tok
  rw [if_neg (by simp only [List.isEmpty_iff]; exact natDigits_ne_nil v)]
  rw [if_pos (by rw [List.all_eq_true]; exact natDigits_all_digit v)]
  rw [digitsVal_natDigits]
  omega

theorem map_getD_range {α : Type} (l : List α) (d : α) :
    (List.range l.length).map (fun i => l.getD i d) = l := by
  apply List.ext_getElem (by simp)
  intro n h1 h2
  simp only [List.getElem_map, List.getElem_range]
  exact List.getD_eq_getElem l d h2

theorem range_flatMap_getD {α β : Type} (l : List α) (d : α) (F : α → List β) :
    (List.range l.length).flatMap (fun i => F (l.getD i d)) = l.flatMap F := by
  conv_rhs => rw [← map_getD_range l d]
  rw [List.flatMap_map]

theorem flatMap_congr_mem {α β : Type} (f g : α → List β) :
    ∀ (l : List α), (∀ a ∈ l, f a = g a) → l.flatMap f = l.flatMap g := by
  intro l
  induction l with
  | nil => intro _; rfl
  | cons a t ih =>
    intro h
    rw [List.flatMap_cons, List.flatMap_cons, h a (by simp),
      ih (fun x hx => h x (by simp [hx]))]

theorem length_flatMap_fixed {α β : Type} (f : α → List β) (k : Nat) :
    ∀ (l : List α), (∀ a ∈ l, (f a).length = k) → (l.flatMap f).length = k * l.length := by
  intro l
  induction l with
  | nil => intro _; simp
  | cons a t ih =>
    intro h
    rw [List.flatMap_cons, List.length_append, h a (by simp),
      ih (fun x hx => h x (by simp [hx])), List.length_cons, Nat.mul_succ]
    omega

theorem flatMap_fixed_getD {α β : Type} (f : α → List β) (k : Nat) (d : β) :
    ∀ (l : List α) (i : Nat) (hi : i < l.length), ∀ r, r < k → (∀ a ∈ l, (f a).length = k) →
      (l.flatMap f).getD (k * i + r) d = (f (l.get ⟨i, hi⟩)).getD r d := by
  intro l
  induction l with
  | nil => intro i hi; simp at hi
  | cons a t ih =>
    intro i hi r hr h
    cases i with
    | zero =>
      rw [List.flatMap_cons, Nat.mul_zero, Nat.zero_add]
      show (f a ++ t.flatMap f).getD r d = (f a).getD r d
      rw [List.getD_eq_getElem?_getD, List.getD_eq_getElem?_getD,
        List.getElem?_append_left (by rw [h a (by simp)]; exact hr)]
    | succ i2 =>
      rw [List.flatMap_cons]
      have hix : k * (i2 + 1) + r = (f a).length + (k * i2 + r) := by
        rw [h a (by simp)]
        ring
      rw [hix]
      rw [List.getD_eq_getElem?_getD, List.getElem?_append_right (by omega)]
      rw [show (f a).length + (k * i2 + r) - (f a).length = k * i2 + r from by omega]
      rw [← List.getD_eq_getElem?_getD]
      exact ih i2 (by simp at hi; omega) r hr (fun x hx => h x (by simp [hx]))

theorem fields_render_sp :
    ∀ (toks : List (List Nat)), (∀ t ∈ toks, t ≠ [] ∧ ∀ b ∈ t, isWS b = false) →
      fields (toks.flatMap (fun t => t ++ [32])) = toks := by
  intro toks
  induction toks with
  | nil => intro _; rfl
  | cons t ts ih =>
    intro h
    unfold fields
    rw [List.flatMap_cons]
    rw [show (t ++ [32]) ++ ts.flatMap (fun t => t ++ [32]) =
      t ++ 32 :: ts.flatMap (fun t => t ++ [32]) from by simp]
    rw [fieldsGo_token _ t [] (h t (by simp)).2
      (fun h0 => absurd h0 (h t (by simp)).1)]
    have ihh := ih (fun x hx => h x (by simp [hx]))
    unfold fields at ihh
    rw [ihh]
    simp

theorem rowContentP3_tokens (row : List Pixel) :
    row.flatMap (fun px => natDigits px.R ++ [32] ++ natDigits px.G ++ [32] ++
        natDigits px.B ++ [32]) =
      (row.flatMap (fun px =>
        [natDigits px.R, natDigits px.G, natDigits px.B])).flatMap (fun t => t ++ [32]) := by
  rw [List.flatMap_assoc]
  apply flatMap_congr_mem
  intro px _
  simp

theorem fields_rowContentP3 (row : List Pixel) :
    fields (row.flatMap (fun px => natDigits px.R ++ [32] ++ natDigits px.G ++ [32] ++
        natDigits px.B ++ [32])) =
      row.flatMap (fun px => [natDigits px.R, natDigits px.G, natDigits px.B]) := by
  rw [rowContentP3_tokens]
  apply fields_render_sp
  intro t ht
  rw [List.mem_flatMap] at ht
  obtain ⟨px, _, ht⟩ := ht
  simp only [List.mem_cons, List.not_mem_nil, or_false] at ht
  rcases ht with ht | ht | ht <;> subst ht <;>
    exact ⟨natDigits_ne_nil _, natDigits_not_ws _⟩

theorem toksP3_length (row : List Pixel) :
    (row.flatMap (fun px => [natDigits px.R, natDigits px.G, natDigits px.B])).length =
      3 * row.length :=
  length_flatMap_fixed _ 3 row (fun _ _ => rfl)

theorem toksP3_getD (row : List Pixel) (i : Nat) (hi : i < row.length) (c : Nat) (hc : c < 3) :
    (row.flatMap (fun px =>
        [natDigits px.R, natDigits px.G, natDigits px.B])).getD (3 * i + c) [] =
      [natDigits (row.get ⟨i, hi⟩).R, natDigits (row.get ⟨i, hi⟩).G,
        natDigits (row.get ⟨i, hi⟩).B].getD c [] :=
  flatMap_fixed_getD _ 3 [] row i hi c hc (fun _ _ => rfl)

theorem pixel_eta (px : Pixel) : Pixel.mk px.R px.G px.B = px := rfl

theorem storeRowP3Aux_step (val : List (List Nat)) (line n i : Nat) (d : List (List Pixel))
    (h1 : ¬(val.length ≤ i * 3 + 2)) (h2 : ¬(d.length ≤ line))
    (h3 : ¬((d.getD line []).length ≤ i)) :
    storeRowP3Aux val line (n + 1) i d =
      storeRowP3Aux val line n (i + 1) (gridSet d i line
        ⟨parseUint8Tok (val.getD (i * 3) []), parseUint8Tok (val.getD (i * 3 + 1) []),
          parseUint8Tok (val.getD (i * 3 + 2) [])⟩) := by
  simp only [storeRowP3Aux]
  rw [if_neg h1, if_neg h2, if_neg h3]

theorem storeRowP3Aux_spec (val : List (List Nat)) (line W : Nat) (hval : 3 * W ≤ val.length) :
    ∀ (n i : Nat), i + n = W → ∀ (d : List (List Pixel)), line < d.length →
      (d.getD line []).length = W →
      ∃ d2, storeRowP3Aux val line n i d = some d2 ∧
        d2.length = d.length ∧
        (∀ j, j ≠ line → d2.getD j [] = d.getD j []) ∧
        (d2.getD line []).length = W ∧
        (∀ x, x < W → (d2.getD line []).getD x zeroPixel =
          if i ≤ x then
            ⟨parseUint8Tok (val.getD (x * 3) []), parseUint8Tok (val.getD (x * 3 + 1) []),
              parseUint8Tok (val.getD (x * 3 + 2) [])⟩
          else (d.getD line []).getD x zeroPixel) := by
  intro n
  induction n with
  | zero =>
    intro i hi d hline hrow
    refine ⟨d, rfl, rfl, fun j _ => rfl, hrow, ?_⟩
    intro x hx
    rw [if_neg (by omega)]
  | succ n ih =>
    intro i hi d hline hrow
    rw [storeRowP3Aux_step val line n i d (by omega) (by omega) (by omega)]
    have hrownew : ((gridSet d i line
        ⟨parseUint8Tok (val.getD (i * 3) []), parseUint8Tok (val.getD (i * 3 + 1) []),
          parseUint8Tok (val.getD (i * 3 + 2) [])⟩).getD line []) =
        (d.getD line []).set i
          ⟨parseUint8Tok (val.getD (i * 3) []), parseUint8Tok (val.getD (i * 3 + 1) []),
            parseUint8Tok (val.getD (i * 3 + 2) [])⟩ := by
      unfold gridSet
      rw [getD_set, if_pos ⟨rfl, hline⟩]
    obtain ⟨d2, hst, hlen2, hother, hrowlen, hcell⟩ := ih (i + 1) (by omega)
      (gridSet d i line
        ⟨parseUint8Tok (val.getD (i * 3) []), parseUint8Tok (val.getD (i * 3 + 1) []),
          parseUint8Tok (val.getD (i * 3 + 2) [])⟩)
      (by rw [length_gridSet]; exact hline)
      (by rw [hrownew, List.length_set]; exact hrow)
    refine ⟨d2, hst, by rw [hlen2, length_gridSet], ?_, hrowlen, ?_⟩
    · intro j hj
      rw [hother j hj]
      unfold gridSet
      rw [getD_set, if_neg (by tauto)]
    · intro x hx
      rw [hcell x hx, hrownew]
      by_cases hc1 : i + 1 ≤ x
      · rw [if_pos hc1, if_pos (by omega)]
      · rw [if_neg hc1]
        by_cases hc2 : i ≤ x
        · have hxi : x = i := by omega
          subst hxi
          rw [if_pos (le_refl x), getD_set, if_pos ⟨rfl, by omega⟩]
        · rw [if_neg hc2, getD_set, if_neg (by omega)]

theorem storeRowP3_render (row : List Pixel) (W line : Nat) (hW : row.length = W)
    (hpx : ∀ px ∈ row, wfPixel px) (d : List (List Pixel)) (hline : line < d.length)
    (hrow : (d.getD line []).length = W) :
    storeRowP3Aux (fields (row.flatMap (fun px => natDigits px.R ++ [32] ++
        natDigits px.G ++ [32] ++ natDigits px.B ++ [32]))) line W 0 d =
      some (d.set line row) := by
  rw [fields_rowContentP3]
  obtain ⟨d2, hst, hlen2, hother, hrowlen, hcell⟩ :=
    storeRowP3Aux_spec _ line W (by rw [toksP3_length, hW]) W 0 (by omega) d hline hrow
  rw [hst]
  congr 1
  apply list_eq_of_getD [] _ _ (by rw [hlen2, List.length_set])
  intro j hj
  rw [hlen2] at hj
  by_cases hjl : j = line
  · subst hjl
    rw [getD_set, if_pos ⟨rfl, hline⟩]
    apply list_eq_of_getD zeroPixel _ _ (by rw [hrowlen, hW])
    intro x hx
    rw [hrowlen] at hx
    rw [hcell x hx, if_pos (by omega)]
    have hxr : x < row.length := by omega
    rw [show x * 3 = 3 * x from by ring]
    have h0 := toksP3_getD row x hxr 0 (by omega)
    rw [Nat.add_zero] at h0
    rw [h0, toksP3_getD row x hxr 1 (by omega), toksP3_getD row x hxr 2 (by omega)]
    simp only [List.getD_cons_zero, List.getD_cons_succ]
    obtain ⟨hR, hG, hB⟩ := hpx _ (row.get_mem x hxr)
    rw [parseUint8Tok_natDigits _ (by omega), parseUint8Tok_natDigits _ (by omega),
      parseUint8Tok_natDigits _ (by omega), pixel_eta]
    rw [List.get_eq_getElem, List.getD_eq_getElem _ _ hxr]
  · rw [hother j hjl, getD_set, if_neg (by tauto)]

theorem natDigits_append_head_digit (n : Nat) (rest : List Nat) :
    ∃ dd, (natDigits n ++ rest).head? = some dd ∧ 48 ≤ dd ∧ dd ≤ 57 := by
  obtain ⟨d, ds, hds⟩ := natDigits_cons n
  refine ⟨d, ?_, ?_⟩
  · rw [hds]; rfl
  · exact natDigits_digits n d (by rw [hds]; simp)

theorem rowContentP3_head (row : List Pixel) (hne : row ≠ []) :
    ¬((row.flatMap (fun px => natDigits px.R ++ [32] ++ natDigits px.G ++ [32] ++
        natDigits px.B ++ [32])).head? = some 35) := by
  obtain ⟨px, r2, hpr⟩ : ∃ px r2, row = px :: r2 := by
    cases row with
    | nil => exact absurd rfl hne
    | cons px r2 => exact ⟨px, r2, rfl⟩
  rw [hpr, List.flatMap_cons]
  rw [show (natDigits px.R ++ [32] ++ natDigits px.G ++ [32] ++ natDigits px.B ++ [32]) ++
      r2.flatMap (fun px => natDigits px.R ++ [32] ++ natDigits px.G ++ [32] ++
        natDigits px.B ++ [32]) =
    natDigits px.R ++ ([32] ++ natDigits px.G ++ [32] ++ natDigits px.B ++ [32] ++
      r2.flatMap (fun px => natDigits px.R ++ [32] ++ natDigits px.G ++ [32] ++
        natDigits px.B ++ [32])) from by simp]
  obtain ⟨dd, hdd, h48, h57⟩ := natDigits_append_head_digit px.R _
  rw [hdd]
  intro hc
  injection hc with hc
  omega

theorem readPPMLoop_p3_rows (all : List Nat) (wI hI : Int) (m : Nat)
    (hw1 : 1 ≤ wI) (hm : ¬(m = 0)) :
    ∀ (rows : List (List Pixel)) (d : List (List Pixel)) (line : Nat),
      (∀ r ∈ rows, r.length = wI.toNat ∧ ∀ px ∈ r, wfPixel px) →
      line + rows.length = d.length →
      (∀ r ∈ d, r.length = wI.toNat) →
      ∃ dfin,
        readPPMLoop all (rows.map (fun row => row.flatMap (fun px =>
            natDigits px.R ++ [32] ++ natDigits px.G ++ [32] ++ natDigits px.B ++ [32])))
          ⟨d, wI, hI, magicP3, m⟩ line = some ⟨dfin, wI, hI, magicP3, m⟩ ∧
        dfin.length = d.length ∧
        (∀ j, j < line ∨ line + rows.length ≤ j → dfin.getD j [] = d.getD j []) ∧
        (∀ t, t < rows.length → dfin.getD (line + t) [] = rows.getD t []) := by
  intro rows
  induction rows with
  | nil =>
    intro d line _ _ _
    refine ⟨d, rfl, rfl, fun j _ => rfl, ?_⟩
    intro t ht
    simp at ht
  | cons r rs ih =>
    intro d line hrows hlen hd
    have hr := hrows r (by simp)
    have hrne : r ≠ [] := by
      intro hc
      rw [hc] at hr
      have : (0 : Nat) = wI.toNat := hr.1
      omega
    have hline : line < d.length := by
      rw [List.length_cons] at hlen
      omega
    rw [List.map_cons]
    rw [readPPMLoop_p3_step all _ _ _ line (d.set line r)
      (rowContentP3_head r hrne) rfl (by dsimp only; omega) hm
      (by
        dsimp only
        exact storeRowP3_render r wI.toNat line hr.1 hr.2 d hline
          (rowlen_getD d wI.toNat hd line hline))]
    obtain ⟨dfin, hloop, hflen, hout, hfill⟩ := ih (d.set line r) (line + 1)
      (fun x hx => hrows x (by simp [hx]))
      (by rw [List.length_set]; rw [List.length_cons] at hlen; omega)
      (fun x hx => by
        rcases List.mem_or_eq_of_mem_set hx with h1 | h1
        · exact hd x h1
        · rw [h1]; exact hr.1)
    refine ⟨dfin, hloop, by rw [hflen, List.length_set], ?_, ?_⟩
    · intro j hj
      rw [List.length_cons] at hj
      have hj2 : j < line + 1 ∨ line + 1 + rs.length ≤ j := by omega
      rw [hout j hj2, getD_set, if_neg (by omega)]
    · intro t ht
      cases t with
      | zero =>
        rw [Nat.add_zero, hout line (Or.inl (by omega)), getD_set,
          if_pos ⟨rfl, hline⟩, List.getD_cons_zero]
      | succ t2 =>
        rw [show line + (t2 + 1) = line + 1 + t2 from by omega]
        rw [hfill t2 (by rw [List.length_cons] at ht; omega), List.getD_cons_succ]

theorem payload_rows {β : Type} (data : List (List Pixel)) (H : Nat)
    (hlen : data.length = H) (G : List Pixel → List β) :
    (List.range H).flatMap (fun y => G (data.getD y [])) = data.flatMap G := by
  subst hlen
  exact range_flatMap_getD data [] G

theorem savePPM_p3 (data : List (List Pixel)) (wI hI : Int) (m : Nat)
    (hw0 : 0 ≤ wI) (hh0 : 0 ≤ hI) (hlen : data.length = hI.toNat)
    (hrows : ∀ r ∈ data, r.length = wI.toNat) :
    savePPM ⟨data, wI, hI, magicP3, m⟩ =
      [80, 51] ++ 10 :: ((natDigits wI.toNat ++ [32] ++ natDigits hI.toNat) ++
        10 :: (natDigits m ++ 10 :: (data.map (fun row => row.flatMap (fun px =>
          natDigits px.R ++ [32] ++ natDigits px.G ++ [32] ++
            natDigits px.B ++ [32]))).flatMap (fun l => l ++ [10]))) := by
  unfold savePPM
  dsimp only
  rw [if_pos rfl]
  rw [intDigits_nonneg _ hw0, intDigits_nonneg _ hh0]
  simp only [gridGet]
  have h1 := payload_rows data hI.toNat hlen (fun row =>
    ((List.range wI.toNat).flatMap (fun x =>
      natDigits ((row.getD x zeroPixel)).R ++ [32] ++
        natDigits ((row.getD x zeroPixel)).G ++ [32] ++
        natDigits ((row.getD x zeroPixel)).B ++ [32])) ++ [10])
  simp only [] at h1
  rw [h1]
  have h2 : data.flatMap (fun row =>
      ((List.range wI.toNat).flatMap (fun x =>
        natDigits ((row.getD x zeroPixel)).R ++ [32] ++
          natDigits ((row.getD x zeroPixel)).G ++ [32] ++
          natDigits ((row.getD x zeroPixel)).B ++ [32])) ++ [10]) =
      data.flatMap (fun row => (row.flatMap (fun px =>
        natDigits px.R ++ [32] ++ natDigits px.G ++ [32] ++
          natDigits px.B ++ [32])) ++ [10]) := by
    apply flatMap_congr_mem
    intro row hrow
    have hl := hrows row hrow
    have h3 : (List.range wI.toNat).flatMap (fun x =>
        natDigits ((row.getD x zeroPixel)).R ++ [32] ++
          natDigits ((row.getD x zeroPixel)).G ++ [32] ++
          natDigits ((row.getD x zeroPixel)).B ++ [32]) =
        row.flatMap (fun px => natDigits px.R ++ [32] ++ natDigits px.G ++ [32] ++
          natDigits px.B ++ [32]) := by
      rw [← hl]
      exact range_flatMap_getD row zeroPixel (fun px =>
        natDigits px.R ++ [32] ++ natDigits px.G ++ [32] ++ natDigits px.B ++ [32])
    rw [h3]
  rw [h2]
  have h4 : data.flatMap (fun row => (row.flatMap (fun px =>
      natDigits px.R ++ [32] ++ natDigits px.G ++ [32] ++
        natDigits px.B ++ [32])) ++ [10]) =
      (data.map (fun row => row.flatMap (fun px =>
        natDigits px.R ++ [32] ++ natDigits px.G ++ [32] ++
          natDigits px.B ++ [32]))).flatMap (fun l => l ++ [10]) := by
    rw [List.flatMap_map]
  rw [h4]
  simp [magicP3]

theorem dims_no13 (a b : Nat) : ∀ x ∈ natDigits a ++ [32] ++ natDigits b, x ≠ 13 := by
  intro x hx
  rcases List.mem_append.mp hx with hx | hx
  · rcases List.mem_append.mp hx with hx | hx
    · have := natDigits_digits a x hx
      omega
    · simp at hx
      omega
  · have := natDigits_digits b x hx
    omega

theorem natDigits_no10 (n : Nat) : ∀ x ∈ natDigits n, x ≠ 10 := by
  intro x hx
  have := natDigits_digits n x hx
  omega

theorem natDigits_no13 (n : Nat) : ∀ x ∈ natDigits n, x ≠ 13 := by
  intro x hx
  have := natDigits_digits n x hx
  omega

theorem natDigitsAux_length : ∀ (f k n : Nat), n < f → n < 10 ^ k → 1 ≤ k →
    (natDigitsAux f n).length ≤ k := by
  intro f
  induction f with
  | zero => intro k n h; omega
  | succ f ih =>
    intro k n hnf hnk hk1
    by_cases h10 : n < 10
    · unfold natDigitsAux
      rw [if_pos h10]
      simpa using hk1
    · unfold natDigitsAux
      rw [if_neg h10]
      rw [List.length_append]
      have hk2 : 2 ≤ k := by
        by_contra hc
        have hk : k = 1 := by omega
        rw [hk, pow_one] at hnk
        omega
      have h1 : n / 10 < f := by omega
      have h2 : n / 10 < 10 ^ (k - 1) := by
        have hpow : 10 ^ k = 10 ^ (k - 1) * 10 := by
          rw [← pow_succ]
          congr 1
          omega
        rw [hpow] at hnk
        omega
      have := ih (k - 1) (n / 10) h1 h2 (by omega)
      simp only [List.length_singleton]
      omega

theorem natDigits_length (n k : Nat) (h : n < 10 ^ k) (hk : 1 ≤ k) :
    (natDigits n).length ≤ k :=
  natDigitsAux_length (n + 1) k n (by omega) h hk

theorem splitLines_p3file (wn hn m : Nat) (contents : List (List Nat))
    (hc : ∀ l ∈ contents, ∀ b ∈ l, b ≠ 10 ∧ b ≠ 13)
    (hcb : ∀ l ∈ contents, l.length < maxScanTokenSize)
    (hwn : (natDigits wn).length ≤ 19) (hhn : (natDigits hn).length ≤ 19)
    (hmd : (natDigits m).length ≤ 3) :
    splitLines ([80, 51] ++ 10 :: ((natDigits wn ++ [32] ++ natDigits hn) ++
        10 :: (natDigits m ++ 10 :: contents.flatMap (fun l => l ++ [10])))) =
      [80, 51] :: (natDigits wn ++ [32] ++ natDigits hn) :: natDigits m :: contents := by
  rw [splitLines_append [80, 51] _ (by decide) (by decide) (by decide)]
  rw [splitLines_append _ _ (dims_no_nl wn hn) (dims_no13 wn hn)
    (by
      simp only [List.length_append, List.length_cons, List.length_nil, maxScanTokenSize]
      omega)]
  rw [splitLines_append _ _ (natDigits_no10 m) (natDigits_no13 m)
    (by simp only [maxScanTokenSize]; omega)]
  rw [splitLines_joined contents hc hcb]

theorem rowContentP3_no1013 (row : List Pixel) :
    ∀ b ∈ row.flatMap (fun px => natDigits px.R ++ [32] ++ natDigits px.G ++ [32] ++
        natDigits px.B ++ [32]), b ≠ 10 ∧ b ≠ 13 := by
  intro b hb
  rw [List.mem_flatMap] at hb
  obtain ⟨px, _, hb⟩ := hb
  simp only [List.mem_append, List.mem_singleton] at hb
  rcases hb with ((((hb | hb) | hb) | hb) | hb) | hb
  · have := natDigits_digits px.R b hb; omega
  · rw [hb]; omega
  · have := natDigits_digits px.G b hb; omega
  · rw [hb]; omega
  · have := natDigits_digits px.B b hb; omega
  · rw [hb]; omega

theorem head_digit_ne_hash (l : List Nat) (d : Nat) (hd : l.head? = some d)
    (h48 : 48 ≤ d) (h57 : d ≤ 57) : ¬(l.head? = some 35) := by
  rw [hd]
  intro hc
  injection hc with hc
  omega

theorem toNat_lt_pow19 (z : Int) (h : z < 2 ^ 63) : z.toNat < 10 ^ 19 := by
  have h2 : (2 : Int) ^ 63 = 9223372036854775808 := by norm_num
  have h10 : (10 : Nat) ^ 19 = 10000000000000000000 := by norm_num
  rw [h2] at h
  rw [h10]
  omega

theorem readPPM_savePPM_p3 (ppm : PPM) (hwf : wfPPM ppm) (hm3 : ppm.magicNumber = magicP3)
    (hw1 : 1 ≤ ppm.width) (hm1 : 1 ≤ ppm.max)
    (hw63 : ppm.width < 2 ^ 63) (hh63 : ppm.height < 2 ^ 63)
    (hrowb : ∀ r ∈ ppm.data, (r.flatMap (fun px => natDigits px.R ++ [32] ++
        natDigits px.G ++ [32] ++ natDigits px.B ++ [32])).length < maxScanTokenSize) :
    readPPM (savePPM ppm) = some ppm := by
  obtain ⟨data, wI, hI, magic, mx⟩ := ppm
  obtain ⟨hw0, hh0, hlen, hrows, hmax⟩ := hwf
  simp only at hw0 hh0 hlen hrows hmax hm3 hw1 hm1 hw63 hh63 hrowb
  subst hm3
  rw [savePPM_p3 data wI hI mx hw0 hh0 hlen (fun r hr => (hrows r hr).1)]
  unfold readPPM
  rw [splitLines_p3file wI.toNat hI.toNat mx _
    (by
      intro l hl
      rw [List.mem_map] at hl
      obtain ⟨row, _, hrl⟩ := hl
      rw [← hrl]
      exact rowContentP3_no1013 row)
    (by
      intro l hl
      rw [List.mem_map] at hl
      obtain ⟨row, hrow, hrl⟩ := hl
      rw [← hrl]
      exact hrowb row hrow)
    (natDigits_length wI.toNat 19 (toNat_lt_pow19 wI hw63) (by omega))
    (natDigits_length hI.toNat 19 (toNat_lt_pow19 hI hh63) (by omega))
    (natDigits_length mx 3 (by norm_num; omega) (by omega))]
  rw [readPPMLoop_magic_step _ _ _ _ _ (by decide) rfl]
  rw [show trimSpace [80, 51] = magicP3 from by decide]
  dsimp only
  rw [readPPMLoop_dims_step _ _ _ _ _ ((wI.toNat : Nat) : Int) ((hI.toNat : Nat) : Int)
    (by
      rw [List.append_assoc]
      obtain ⟨dd, hdd, h48, h57⟩ :=
        natDigits_append_head_digit wI.toNat ([32] ++ natDigits hI.toNat)
      exact head_digit_ne_hash _ dd hdd h48 h57)
    (by decide) rfl
    (scanTwoIntsLoose_render wI.toNat hI.toNat 0 0)
    (by omega) (by omega)]
  rw [Int.toNat_natCast, Int.toNat_natCast]
  dsimp only
  rw [readPPMLoop_max_step _ _ _ _ _
    (by
      obtain ⟨dd, hdd, h48, h57⟩ := natDigits_append_head_digit mx []
      rw [List.append_nil] at hdd
      exact head_digit_ne_hash _ dd hdd h48 h57)
    (by dsimp only; decide) (by dsimp only; omega) rfl]
  rw [scanMaxLoose_render mx (by omega) 0]
  dsimp only
  obtain ⟨dfin, hloop, hflen, hout, hfill⟩ :=
    readPPMLoop_p3_rows ([80, 51] ++ 10 :: ((natDigits wI.toNat ++ [32] ++
        natDigits hI.toNat) ++ 10 :: (natDigits mx ++ 10 :: (data.map (fun row =>
          row.flatMap (fun px => natDigits px.R ++ [32] ++ natDigits px.G ++ [32] ++
            natDigits px.B ++ [32]))).flatMap (fun l => l ++ [10]))))
      ((wI.toNat : Nat) : Int) ((hI.toNat : Nat) : Int) mx
      (by omega) (by omega) data
      (List.replicate hI.toNat (List.replicate wI.toNat zeroPixel)) 0
      (fun r hr => ⟨by rw [Int.toNat_natCast]; exact (hrows r hr).1, (hrows r hr).2⟩)
      (by rw [List.length_replicate, Nat.zero_add]; exact hlen)
      (fun r hr => by
        rw [Int.toNat_natCast]
        rcases (List.mem_replicate.mp hr).2 with h1
        rw [h1, List.length_replicate])
  rw [hloop]
  have hdata : dfin = data := by
    apply list_eq_of_getD [] _ _ (by rw [hflen, List.length_replicate, hlen])
    intro j hj
    have hjd : j < data.length := by
      rw [hflen, List.length_replicate] at hj
      omega
    have := hfill j hjd
    rw [Nat.zero_add] at this
    exact this
  rw [hdata, show ((wI.toNat : Nat) : Int) = wI from by omega,
    show ((hI.toNat : Nat) : Int) = hI from by omega]

theorem readPPMLoop_skip_step (all text : List Nat) (rest : List (List Nat)) (ppm : PPM)
    (line : Nat) (hh : text.head? = some 35) :
    readPPMLoop all (text :: rest) ppm line = readPPMLoop all rest ppm line := by
  simp only [readPPMLoop]
  rw [if_pos hh]

theorem readPPMLoop_p6_trigger (all : List Nat) (ppm : PPM) (line : Nat)
    (d2 : List (List Pixel))
    (hm6 : ppm.magicNumber = magicP6) (hw : ¬(ppm.width = 0)) (hmax : ¬(ppm.max = 0))
    (hlen : ¬(all.length < (ppm.width * ppm.height * 3).toNat))
    (hfill : fillP6All (all.drop (all.length - (ppm.width * ppm.height * 3).toNat))
        ppm.width.toNat ppm.height.toNat 0 ppm.data = some d2) :
    ∀ (ls : List (List Nat)), (∃ l ∈ ls, ¬(l.head? = some 35)) →
      readPPMLoop all ls ppm line = some { ppm with data := d2 } := by
  intro ls
  induction ls with
  | nil =>
    intro hex
    obtain ⟨l, hl, _⟩ := hex
    simp at hl
  | cons l0 rest ih =>
    intro hex
    obtain ⟨l, hl, hn⟩ := hex
    by_cases h0 : l0.head? = some 35
    · rw [readPPMLoop_skip_step all l0 rest ppm line h0]
      apply ih
      rcases List.mem_cons.mp hl with h1 | h1
      · exact absurd (h1 ▸ h0) hn
      · exact ⟨l, h1, hn⟩
    · exact readPPMLoop_p6_step all l0 rest ppm line d2 h0 hm6 hw hmax hlen hfill

theorem fillP6Row_step (pd : List Nat) (w y n x : Nat) (d : List (List Pixel))
    (h1 : ¬(d.length ≤ y)) (h2 : ¬((d.getD y []).length ≤ x))
    (h3 : ¬(pd.length ≤ 3 * (y * w + x) + 2)) :
    fillP6Row pd w y (n + 1) x d =
      fillP6Row pd w y n (x + 1) (gridSet d x y
        ⟨pd.getD (3 * (y * w + x)) 0, pd.getD (3 * (y * w + x) + 1) 0,
          pd.getD (3 * (y * w + x) + 2) 0⟩) := by
  simp only [fillP6Row]
  rw [if_neg h1, if_neg h2, if_neg h3]

theorem fillP6Row_spec (pd : List Nat) (W y : Nat) (hpd : 3 * (y * W + W) ≤ pd.length) :
    ∀ (n x : Nat), x + n = W → ∀ (d : List (List Pixel)), y < d.length →
      (d.getD y []).length = W →
      ∃ d2, fillP6Row pd W y n x d = some d2 ∧
        d2.length = d.length ∧
        (∀ j, j ≠ y → d2.getD j [] = d.getD j []) ∧
        (d2.getD y []).length = W ∧
        (∀ t, t < W → (d2.getD y []).getD t zeroPixel =
          if x ≤ t then
            ⟨pd.getD (3 * (y * W + t)) 0, pd.getD (3 * (y * W + t) + 1) 0,
              pd.getD (3 * (y * W + t) + 2) 0⟩
          else (d.getD y []).getD t zeroPixel) := by
  intro n
  induction n with
  | zero =>
    intro x hx d hy hrow
    refine ⟨d, rfl, rfl, fun j _ => rfl, hrow, ?_⟩
    intro t ht
    rw [if_neg (by omega)]
  | succ n ih =>
    intro x hx d hy hrow
    rw [fillP6Row_step pd W y n x d (by omega) (by omega) (by omega)]
    have hrownew : ((gridSet d x y
        ⟨pd.getD (3 * (y * W + x)) 0, pd.getD (3 * (y * W + x) + 1) 0,
          pd.getD (3 * (y * W + x) + 2) 0⟩).getD y []) =
        (d.getD y []).set x
          ⟨pd.getD (3 * (y * W + x)) 0, pd.getD (3 * (y * W + x) + 1) 0,
            pd.getD (3 * (y * W + x) + 2) 0⟩ := by
      unfold gridSet
      rw [getD_set, if_pos ⟨rfl, hy⟩]
    obtain ⟨d2, hst, hlen2, hother, hrowlen, hcell⟩ := ih (x + 1) (by omega)
      (gridSet d x y
        ⟨pd.getD (3 * (y * W + x)) 0, pd.getD (3 * (y * W + x) + 1) 0,
          pd.getD (3 * (y * W + x) + 2) 0⟩)
      (by rw [length_gridSet]; exact hy)
      (by rw [hrownew, List.length_set]; exact hrow)
    refine ⟨d2, hst, by rw [hlen2, length_gridSet], ?_, hrowlen, ?_⟩
    · intro j hj
      rw [hother j hj]
      unfold gridSet
      rw [getD_set, if_neg (by tauto)]
    · intro t ht
      rw [hcell t ht, hrownew]
      by_cases hc1 : x + 1 ≤ t
      · rw [if_pos hc1, if_pos (by omega)]
      · rw [if_neg hc1]
        by_cases hc2 : x ≤ t
        · have htx : t = x := by omega
          subst htx
          rw [if_pos (le_refl t), getD_set, if_pos ⟨rfl, by omega⟩]
        · rw [if_neg hc2, getD_set, if_neg (by omega)]

theorem fillP6All_spec (pd : List Nat) (W : Nat) :
    ∀ (n y : Nat) (d : List (List Pixel)), y + n = d.length →
      3 * (d.length * W) ≤ pd.length →
      (∀ j, j < d.length → (d.getD j []).length = W) →
      ∃ d2, fillP6All pd W n y d = some d2 ∧
        d2.length = d.length ∧
        (∀ j, j < y → d2.getD j [] = d.getD j []) ∧
        (∀ j, y ≤ j → j < d.length →
          (d2.getD j []).length = W ∧ ∀ t, t < W →
            (d2.getD j []).getD t zeroPixel =
              ⟨pd.getD (3 * (j * W + t)) 0, pd.getD (3 * (j * W + t) + 1) 0,
                pd.getD (3 * (j * W + t) + 2) 0⟩) := by
  intro n
  induction n with
  | zero =>
    intro y d hy _ _
    refine ⟨d, rfl, rfl, fun j _ => rfl, ?_⟩
    intro j hj1 hj2
    omega
  | succ n ih =>
    intro y d hy hpd hrows
    have hyd : y < d.length := by omega
    have hrowb : 3 * (y * W + W) ≤ pd.length := by
      have h1 : (y + 1) * W ≤ d.length * W := Nat.mul_le_mul_right W (by omega)
      have h2 : y * W + W = (y + 1) * W := by ring
      omega
    obtain ⟨drow, hdrow, hdlen, hdother, hdrlen, hdcell⟩ :=
      fillP6Row_spec pd W y hrowb W 0 (by omega) d hyd (hrows y hyd)
    simp only [fillP6All]
    rw [hdrow]
    obtain ⟨d2, hst, hlen2, hbefore, hparsed⟩ := ih (y + 1) drow (by omega)
      (by rw [hdlen]; exact hpd)
      (fun j hj => by
        rw [hdlen] at hj
        by_cases hjy : j = y
        · subst hjy
          exact hdrlen
        · rw [hdother j hjy]
          exact hrows j hj)
    refine ⟨d2, hst, by rw [hlen2, hdlen], ?_, ?_⟩
    · intro j hj
      rw [hbefore j (by omega), hdother j (by omega)]
    · intro j hj1 hj2
      by_cases hjy : j = y
      · subst hjy
        rw [hbefore j (by omega)]
        refine ⟨hdrlen, ?_⟩
        intro t ht
        rw [hdcell t ht, if_pos (Nat.zero_le t)]
      · have hj3 : y + 1 ≤ j := by omega
        have hj4 : j < drow.length := by rw [hdlen]; omega
        exact hparsed j hj3 hj4

theorem savePPM_p6 (data : List (List Pixel)) (wI hI : Int) (m : Nat)
    (hw0 : 0 ≤ wI) (hh0 : 0 ≤ hI) (hlen : data.length = hI.toNat)
    (hrows : ∀ r ∈ data, r.length = wI.toNat) :
    savePPM ⟨data, wI, hI, magicP6, m⟩ =
      [80, 54] ++ 10 :: ((natDigits wI.toNat ++ [32] ++ natDigits hI.toNat) ++
        10 :: (natDigits m ++ 10 :: data.flatMap (fun row => row.flatMap (fun px =>
          [px.R, px.G, px.B])))) := by
  unfold savePPM
  dsimp only
  rw [if_neg (by decide), if_pos rfl]
  rw [intDigits_nonneg _ hw0, intDigits_nonneg _ hh0]
  simp only [gridGet]
  have h1 := payload_rows data hI.toNat hlen (fun row =>
    (List.range wI.toNat).flatMap (fun x =>
      [(row.getD x zeroPixel).R, (row.getD x zeroPixel).G, (row.getD x zeroPixel).B]))
  simp only [] at h1
  rw [h1]
  have h2 : data.flatMap (fun row =>
      (List.range wI.toNat).flatMap (fun x =>
        [(row.getD x zeroPixel).R, (row.getD x zeroPixel).G, (row.getD x zeroPixel).B])) =
      data.flatMap (fun row => row.flatMap (fun px => [px.R, px.G, px.B])) := by
    apply flatMap_congr_mem
    intro row hrow
    have hl := hrows row hrow
    rw [← hl]
    exact range_flatMap_getD row zeroPixel (fun px => [px.R, px.G, px.B])
  rw [h2]
  simp [magicP6]

theorem p6_payload_length (data : List (List Pixel)) (W : Nat)
    (hrows : ∀ r ∈ data, r.length = W) :
    (data.flatMap (fun row => row.flatMap (fun px => [px.R, px.G, px.B]))).length =
      (3 * W) * data.length :=
  length_flatMap_fixed _ (3 * W) data (fun r hr => by
    rw [length_flatMap_fixed (fun px => [px.R, px.G, px.B]) 3 r (fun _ _ => rfl), hrows r hr])

theorem p6_payload_getD (data : List (List Pixel)) (W : Nat)
    (hrows : ∀ r ∈ data, r.length = W) (y : Nat) (hy : y < data.length)
    (t : Nat) (ht : t < W) (c : Nat) (hc : c < 3) :
    (data.flatMap (fun row => row.flatMap (fun px =>
        [px.R, px.G, px.B]))).getD (3 * (y * W + t) + c) 0 =
      [((data.getD y []).getD t zeroPixel).R, ((data.getD y []).getD t zeroPixel).G,
        ((data.getD y []).getD t zeroPixel).B].getD c 0 := by
  have hidx : 3 * (y * W + t) + c = (3 * W) * y + (3 * t + c) := by ring
  rw [hidx]
  rw [flatMap_fixed_getD (fun row => row.flatMap (fun px => [px.R, px.G, px.B])) (3 * W) 0
    data y hy (3 * t + c) (by omega) (fun r hr => by
      rw [length_flatMap_fixed (fun px => [px.R, px.G, px.B]) 3 r (fun _ _ => rfl), hrows r hr])]
  have htl : t < (data.get ⟨y, hy⟩).length := by
    rw [hrows _ (data.get_mem y hy)]
    exact ht
  rw [flatMap_fixed_getD (fun px => [px.R, px.G, px.B]) 3 0 (data.get ⟨y, hy⟩) t htl c hc
    (fun _ _ => rfl)]
  rw [List.getD_eq_getElem data [] hy]
  have htl2 : t < data[y].length := htl
  rw [List.getD_eq_getElem (data[y]) zeroPixel htl2]
  rfl

theorem readPPM_savePPM_p6 (ppm : PPM) (hwf : wfPPM ppm) (hm6 : ppm.magicNumber = magicP6)
    (hw1 : 1 ≤ ppm.width) (hm1 : 1 ≤ ppm.max)
    (hw63 : ppm.width < 2 ^ 63) (hh63 : ppm.height < 2 ^ 63)
    (htrig : ppm.height = 0 ∨ ∃ l ∈ splitLines (ppm.data.flatMap (fun row =>
        row.flatMap (fun px => [px.R, px.G, px.B]))), ¬(l.head? = some 35)) :
    readPPM (savePPM ppm) = some ppm := by
  obtain ⟨data, wI, hI, magic, mx⟩ := ppm
  obtain ⟨hw0, hh0, hlen, hrows, hmax⟩ := hwf
  simp only at hw0 hh0 hlen hrows hmax hm6 hw1 hm1 hw63 hh63 htrig
  subst hm6
  have rows1 : ∀ r ∈ data, r.length = wI.toNat := fun r hr => (hrows r hr).1
  rw [savePPM_p6 data wI hI mx hw0 hh0 hlen rows1]
  unfold readPPM
  rw [splitLines_append [80, 54] _ (by decide) (by decide) (by decide)]
  rw [splitLines_append _ _ (dims_no_nl wI.toNat hI.toNat) (dims_no13 wI.toNat hI.toNat)
    (by
      have hwd := natDigits_length wI.toNat 19 (toNat_lt_pow19 wI hw63) (by omega)
      have hhd := natDigits_length hI.toNat 19 (toNat_lt_pow19 hI hh63) (by omega)
      simp only [List.length_append, List.length_cons, List.length_nil, maxScanTokenSize]
      omega)]
  rw [splitLines_append _ _ (natDigits_no10 mx) (natDigits_no13 mx)
    (by
      have hmd := natDigits_length mx 3 (by norm_num; omega) (by omega)
      simp only [maxScanTokenSize]
      omega)]
  rw [readPPMLoop_magic_step _ _ _ _ _ (by decide) rfl]
  rw [show trimSpace [80, 54] = magicP6 from by decide]
  dsimp only
  rw [readPPMLoop_dims_step _ _ _ _ _ ((wI.toNat : Nat) : Int) ((hI.toNat : Nat) : Int)
    (by
      rw [List.append_assoc]
      obtain ⟨dd, hdd, h48, h57⟩ :=
        natDigits_append_head_digit wI.toNat ([32] ++ natDigits hI.toNat)
      exact head_digit_ne_hash _ dd hdd h48 h57)
    (by decide) rfl
    (scanTwoIntsLoose_render wI.toNat hI.toNat 0 0)
    (by omega) (by omega)]
  rw [Int.toNat_natCast, Int.toNat_natCast]
  dsimp only
  rw [readPPMLoop_max_step _ _ _ _ _
    (by
      obtain ⟨dd, hdd, h48, h57⟩ := natDigits_append_head_digit mx []
      rw [List.append_nil] at hdd
      exact head_digit_ne_hash _ dd hdd h48 h57)
    (by dsimp only; decide) (by dsimp only; omega) rfl]
  rw [scanMaxLoose_render mx (by omega) 0]
  dsimp only
  rcases htrig with hH0 | hex
  · have hI0 : hI = 0 := hH0
    have hd0 : data = [] := by
      have hdl : data.length = 0 := by rw [hlen, hI0]; rfl
      exact List.length_eq_zero.mp hdl
    subst hd0
    rw [show (([] : List (List Pixel)).flatMap (fun row => row.flatMap (fun px =>
      [px.R, px.G, px.B]))) = [] from rfl]
    rw [show splitLines [] = [] from rfl]
    simp only [readPPMLoop]
    rw [show hI.toNat = 0 from by omega, List.replicate_zero]
    rw [show ((wI.toNat : Nat) : Int) = wI from by omega, hI0]
    norm_num
  · have hcast : ((wI.toNat : Int) * ((hI.toNat : Int)) * 3) =
        ((wI.toNat * hI.toNat * 3 : Nat) : Int) := by push_cast; ring
    have hplen : (data.flatMap (fun row => row.flatMap (fun px =>
        [px.R, px.G, px.B]))).length = wI.toNat * hI.toNat * 3 := by
      rw [p6_payload_length data wI.toNat rows1, hlen]
      ring
    have heq : [80, 54] ++ 10 :: ((natDigits wI.toNat ++ [32] ++ natDigits hI.toNat) ++
        10 :: (natDigits mx ++ 10 :: data.flatMap (fun row => row.flatMap (fun px =>
          [px.R, px.G, px.B])))) =
        ([80, 54] ++ [10] ++ (natDigits wI.toNat ++ [32] ++ natDigits hI.toNat) ++ [10] ++
          natDigits mx ++ [10]) ++ data.flatMap (fun row => row.flatMap (fun px =>
            [px.R, px.G, px.B])) := by
      simp
    obtain ⟨d2, hfillall, hd2len, hbefore, hparsed⟩ :=
      fillP6All_spec (data.flatMap (fun row => row.flatMap (fun px => [px.R, px.G, px.B])))
        wI.toNat hI.toNat 0
        (List.replicate hI.toNat (List.replicate wI.toNat zeroPixel))
        (by rw [List.length_replicate, Nat.zero_add])
        (by
          rw [List.length_replicate, hplen]
          exact le_of_eq (by ring))
        (fun j hj => by
          rw [List.length_replicate] at hj
          rw [List.getD_eq_getElem?_getD, List.getElem?_replicate, if_pos hj]
          exact List.length_replicate wI.toNat zeroPixel)
    rw [readPPMLoop_p6_trigger _ _ 0 d2
      rfl (by dsimp only; omega) (by dsimp only; omega)
      (by
        dsimp only
        rw [hcast, Int.toNat_natCast]
        rw [heq, List.length_append, hplen]
        omega)
      (by
        dsimp only
        rw [Int.toNat_natCast, Int.toNat_natCast, hcast, Int.toNat_natCast]
        rw [heq, List.length_append, hplen, Nat.add_sub_cancel, List.drop_left]
        exact hfillall)
      _ hex]
    have hd2 : d2 = data := by
      apply list_eq_of_getD [] _ _
        (by rw [hd2len, List.length_replicate, hlen])
      intro j hj
      rw [hd2len, List.length_replicate] at hj
      have hjd : j < data.length := by omega
      obtain ⟨hrl, hcells⟩ := hparsed j (Nat.zero_le j)
        (by rw [List.length_replicate]; exact hj)
      apply list_eq_of_getD zeroPixel _ _
        (by rw [hrl, rowlen_getD data wI.toNat rows1 j hjd])
      intro t ht
      rw [hrl] at ht
      rw [hcells t ht]
      have h0 := p6_payload_getD data wI.toNat rows1 j hjd t ht 0 (by omega)
      rw [Nat.add_zero] at h0
      have h1 := p6_payload_getD data wI.toNat rows1 j hjd t ht 1 (by omega)
      have h2 := p6_payload_getD data wI.toNat rows1 j hjd t ht 2 (by omega)
      rw [h0, h1, h2]
      simp only [List.getD_cons_zero, List.getD_cons_succ]
    rw [hd2, show ((wI.toNat : Nat) : Int) = wI from by omega,
      show ((hI.toNat : Nat) : Int) = hI from by omega]

theorem except_map_ok {e : Type} {a b : Type} (x : Except e a) (f : a → b) (r : b)
    (h : x.map f = .ok r) : ∃ v, x = .ok v ∧ f v = r := by
  cases x with
  | error err => simp [Except.map] at h
  | ok v =>
    refine ⟨v, rfl, ?_⟩
    simp [Except.map] at h
    exact h

theorem readPBM_magic (bs : List Nat) (img : PBM)
    (h : readPBM bs = some (.ok img)) :
    img.magicNumber = magicP1 ∨ img.magicNumber = magicP4 := by
  unfold readPBM at h
  split at h
  · simp at h
  · rename_i l1 r1 heq1
    by_cases hmag : ¬trimSpace l1 = magicP1 ∧ ¬trimSpace l1 = magicP4
    · rw [if_pos hmag] at h
      simp at h
    · rw [if_neg hmag] at h
      split at h
      · simp at h
      · rename_i l2 r2 heq2
        split at h
        · simp at h
        · rename_i w hh heq3
          split at h
          · simp at h
          · split at h
            · simp at h
            · split at h
              · rename_i hp1
                injection h with h2
                obtain ⟨rows, _, hf⟩ := except_map_ok _ _ _ h2
                rw [← hf]
                left
                exact hp1
              · rename_i hp1
                injection h with h2
                obtain ⟨pr, _, hf⟩ := except_map_ok _ _ _ h2
                rw [← hf]
                right
                by_contra hc
                exact hmag ⟨hp1, hc⟩

theorem readPBM_bad_magic (bs l1 r1 : List Nat) (h1 : readLine bs = some (l1, r1))
    (h2 : ¬(trimSpace l1 = magicP1)) (h3 : ¬(trimSpace l1 = magicP4)) :
    readPBM bs = some (.error "invalid magic number") := by
  unfold readPBM
  split
  · rename_i heq
    rw [h1] at heq
    simp at heq
  · rename_i l1x r1x heq
    rw [h1] at heq
    injection heq with heq2
    injection heq2 with ha hb
    subst ha
    subst hb
    rw [if_pos ⟨h2, h3⟩]

theorem readPBM_bad_dims (bs l1 r1 l2 r2 : List Nat) (h1 : readLine bs = some (l1, r1))
    (hm : trimSpace l1 = magicP1 ∨ trimSpace l1 = magicP4)
    (h2 : readLine r1 = some (l2, r2))
    (h3 : sscanfTwoInts (trimSpace l2) = none) :
    readPBM bs = some (.error "invalid dimensions") := by
  unfold readPBM
  split
  · rename_i heq
    rw [h1] at heq
    simp at heq
  · rename_i l1x r1x heq
    rw [h1] at heq
    injection heq with heq2
    injection heq2 with ha hb
    subst ha
    subst hb
    rw [if_neg (by rcases hm with h | h <;> rw [h] <;> simp)]
    split
    · rename_i heq
      rw [h2] at heq
      simp at heq
    · rename_i l2x r2x heq
      rw [h2] at heq
      injection heq with heq2
      injection heq2 with ha hb
      subst ha
      subst hb
      split
      · rfl
      · rename_i w hh heq
        rw [h3] at heq
        simp at heq

theorem readRowsP4_short (w : Nat) : ∀ (y : Nat) (r : List Nat),
    r.length < y * ((w + 7) / 8) →
    readRowsP4 w y r = .error "unexpected end of file at row" := by
  intro y
  induction y with
  | zero =>
    intro r h
    rw [Nat.zero_mul] at h
    omega
  | succ y ih =>
    intro r h
    simp only [readRowsP4]
    by_cases hk : r.length < (w + 7) / 8
    · rw [if_pos hk]
    · rw [if_neg hk]
      rw [ih (r.drop ((w + 7) / 8)) (by
        rw [List.length_drop]
        have hs : (y + 1) * ((w + 7) / 8) = y * ((w + 7) / 8) + ((w + 7) / 8) :=
          Nat.succ_mul y ((w + 7) / 8)
        omega)]

theorem readPBM_p4_short (bs l1 r1 l2 r2 : List Nat) (w h : Int)
    (h1 : readLine bs = some (l1, r1)) (h2 : readLine r1 = some (l2, r2))
    (h3 : sscanfTwoInts (trimSpace l2) = some (w, h))
    (hmagic : trimSpace l1 = magicP4) (hw : 0 ≤ w) (hh : 0 ≤ h)
    (hshort : r2.length < h.toNat * ((w.toNat + 7) / 8)) :
    readPBM bs = some (.error "unexpected end of file at row") := by
  rw [readPBM_parsed_P4 bs l1 r1 l2 r2 w h h1 h2 h3 hmagic hw hh]
  rw [readRowsP4_short w.toNat h.toNat r2 hshort]
  rfl

theorem readRowsP1_norow (width : Int) (w y : Nat) (r : List Nat)
    (hr : readLine r = none) :
    readRowsP1 width w (y + 1) r = .error "error reading data at row" := by
  simp only [readRowsP1]
  rw [hr]

theorem readPBM_p1_norow (bs l1 r1 l2 r2 : List Nat) (w h : Int)
    (h1 : readLine bs = some (l1, r1)) (h2 : readLine r1 = some (l2, r2))
    (h3 : sscanfTwoInts (trimSpace l2) = some (w, h))
    (hmagic : trimSpace l1 = magicP1) (hw : 0 ≤ w) (hh : 1 ≤ h)
    (hnor : readLine r2 = none) :
    readPBM bs = some (.error "error reading data at row") := by
  rw [readPBM_parsed_P1 bs l1 r1 l2 r2 w h h1 h2 h3 hmagic hw (by omega)]
  obtain ⟨y, hy⟩ : ∃ y, h.toNat = y + 1 := ⟨h.toNat - 1, by omega⟩
  rw [hy, readRowsP1_norow w w.toNat y r2 hnor]
  rfl

end Netpbm
